import Mathlib

/-!
Verification development for `scripts/hyperspectral/EnvironmentalLoggerAnalyser.py`.

The Python source is shallowly embedded:
* file text is a `List Char`; a line list is a `List Line`;
* Python exceptions become an explicit `PyErr` threaded through `Except`;
* Python `float()` is modelled as exact rational parsing of decimal literals
  (IEEE rounding, exponent forms, `inf`/`nan` are abstracted away; no claim
  below depends on them);
* Python's negative list indexing, `str.find`, slice clamping and
  `list.remove` are modelled faithfully.
-/

namespace EnvLogger

/-- A single line of text, as a list of characters. -/
abbrev Line := List Char

/-- Convenience: string literal to `Line`. -/
def ls (s : String) : Line := s.toList

/-- Python exception kinds relevant to the script. -/
inductive PyErr where
  | indexError
  | keyError
  | valueError
  | typeError
  | attributeError
  deriving DecidableEq, Repr

instance {ε α : Type _} [DecidableEq ε] [DecidableEq α] :
    DecidableEq (Except ε α) := fun a b =>
  match a, b with
  | .ok x, .ok y =>
    if h : x = y then .isTrue (by rw [h])
    else .isFalse (fun hc => h (Except.ok.inj hc))
  | .error x, .error y =>
    if h : x = y then .isTrue (by rw [h])
    else .isFalse (fun hc => h (Except.error.inj hc))
  | .ok _, .error _ => .isFalse (fun hc => Except.noConfusion hc)
  | .error _, .ok _ => .isFalse (fun hc => Except.noConfusion hc)

/-- `true` iff an `Except` computation succeeded. -/
def isOkB : Except ε α → Bool
  | .ok _ => true
  | .error _ => false

/-- `needle in hay` for Python strings: substring containment. -/
def containsSub (needle hay : Line) : Bool :=
  (List.range (hay.length + 1)).any (fun i => needle.isPrefixOf (hay.drop i))

/-- Index of the first occurrence of a character, if any. -/
def findCharIdx (c : Char) : Line → Option Nat
  | [] => none
  | d :: t => if d = c then some 0 else (findCharIdx c t).map (fun i => i + 1)

/-- Python `s.find(c)`: index of first occurrence, `-1` if absent. -/
def pyFind (c : Char) (s : Line) : Int :=
  match findCharIdx c s with
  | some i => (i : Int)
  | none => -1

/-- Python list indexing `l[i]` with negative-index wraparound;
`IndexError` when out of range. -/
def pyIndex (l : List Line) (i : Int) : Except PyErr Line :=
  let j : Int := if i < 0 then i + l.length else i
  if 0 ≤ j ∧ j < l.length then .ok (l.getD j.toNat []) else .error .indexError

/-- Strip leading and trailing whitespace (Python `float`/`int` accept it). -/
def trimWs (s : Line) : Line :=
  ((s.dropWhile Char.isWhitespace).reverse.dropWhile Char.isWhitespace).reverse

/-- Numeric value of a digit string (most significant first). -/
def natOfDigits (ds : List Char) : ℕ :=
  ds.foldl (fun a c => 10 * a + (c.toNat - 48)) 0

/-- Unsigned decimal literal: `digits`, `digits.digits`, `digits.`, `.digits`. -/
def parseUnsigned (t : Line) : Option ℚ :=
  let ip := t.takeWhile Char.isDigit
  let r1 := t.dropWhile Char.isDigit
  match r1 with
  | [] => if ip.isEmpty then none else some (mkRat (natOfDigits ip) 1)
  | '.' :: r2 =>
    let fp := r2.takeWhile Char.isDigit
    let r3 := r2.dropWhile Char.isDigit
    if r3.isEmpty then
      if ip.isEmpty && fp.isEmpty then none
      else some (mkRat (natOfDigits ip * 10 ^ fp.length + natOfDigits fp)
        (10 ^ fp.length))
    else none
  | _ => none

/-- Python `float(s)` on a decimal literal, as an exact rational. -/
def pyFloat (s : Line) : Option ℚ :=
  match trimWs s with
  | '+' :: t => parseUnsigned t
  | '-' :: t => (parseUnsigned t).map Rat.neg
  | t => parseUnsigned t

/-- Helper for `pyInt`: unsigned digits only. -/
def pyIntCore (t : Line) : Option ℤ :=
  if t.isEmpty then none
  else if t.all Char.isDigit then some ((natOfDigits t : ℤ)) else none

/-- Python `int(s)` on a base-10 literal. -/
def pyInt (s : Line) : Option ℤ :=
  match trimWs s with
  | '+' :: t => pyIntCore t
  | '-' :: t => (pyIntCore t).map Neg.neg
  | t => pyIntCore t

/-- The numeric-substring extraction of the source,
`tempList[i][tempList[i].find(':') + 1 : -2]`, with Python slice clamping. -/
def extractNum (s : Line) : Line :=
  (s.take (s.length - 2)).drop (pyFind ':' s + 1).toNat

/-- The record marker key of the source, `"environment_sensor_set_reading"`. -/
def markerKey : Line := ls "environment_sensor_set_reading"

/-- The wavelength key of the source. -/
def wlKey : Line := ls "wavelength"

/-- The spectrum key of the source. -/
def spKey : Line := ls "spectrum"

/-- The band key excluded by the source's array-end detection. -/
def bandKey : Line := ls "band"

/-- State of the repair loop in
`formattingTheJSONFileAndReturnWavelengthAndSpectrum`:
`linePosition`, `wavelengthList`, `spectrumList`, `j`, `k`. -/
structure FmtState where
  linePosition : List Nat
  wavelengthList : List (List ℚ)
  spectrumList : List (List ℚ)
  j : Nat
  k : Nat
  deriving DecidableEq, Repr

/-- Initial state: `list(), [[]], [[]], 0, 0`. -/
def fmtInit : FmtState := ⟨[], [[]], [[]], 0, 0⟩

/-- `l.set i (l[i] ++ [v])`: the source's `wavelengthList[j].append(...)`. -/
def appendAt (l : List (List ℚ)) (i : Nat) (v : ℚ) : List (List ℚ) :=
  l.set i (l.getD i [] ++ [v])

/-- One iteration `i` of the repair loop, reading the (unmodified) `tempList`.
Mirrors the four `if` statements of the source in order, including Python's
left-to-right short-circuit evaluation of
`"wavelength" not in tempList[i] and "wavelength" in tempList[i-4] and ...`. -/
def fmtStep (L : List Line) (st : FmtState) (i : Nat) : Except PyErr FmtState :=
  let line := L.getD i []
  let st1 := if containsSub markerKey line && decide (2 < i) then
      { st with linePosition := st.linePosition ++ [i - 1] } else st
  let e2 : Except PyErr FmtState :=
    if containsSub wlKey line then
      match pyFloat (extractNum line) with
      | some v => .ok { st1 with wavelengthList := appendAt st1.wavelengthList st1.j v }
      | none => .error .valueError
    else .ok st1
  match e2 with
  | .error e => .error e
  | .ok st2 =>
    let e3 : Except PyErr FmtState :=
      if containsSub wlKey line then .ok st2
      else
        match pyIndex L ((i : Int) - 4) with
        | .error e => .error e
        | .ok back =>
          if containsSub wlKey back && !containsSub bandKey line
              && !containsSub [','] line then
            .ok { st2 with
                    wavelengthList := st2.wavelengthList ++ [[]], j := st2.j + 1,
                    spectrumList := st2.spectrumList ++ [[]], k := st2.k + 1 }
          else .ok st2
    match e3 with
    | .error e => .error e
    | .ok st3 =>
      if containsSub spKey line then
        match pyFloat (extractNum line) with
        | some v => .ok { st3 with spectrumList := appendAt st3.spectrumList st3.k v }
        | none => .error .valueError
      else .ok st3

/-- Run the loop body for indices `a, a+1, ..., a+n-1`. -/
def runFrom (L : List Line) (s : FmtState) : Nat → Nat → Except PyErr FmtState
  | _, 0 => .ok s
  | a, n + 1 =>
    match fmtStep L s a with
    | .ok s' => runFrom L s' (a + 1) n
    | .error e => .error e

/-- The whole repair loop `for i in range(len(tempList))`. -/
def fmtLoop (L : List Line) : Except PyErr FmtState :=
  runFrom L fmtInit 0 L.length

/-- Python `list.remove([])`: drop the first element equal to `[]`,
`ValueError` when there is none. -/
def pyRemoveEmpty : List (List ℚ) → Except PyErr (List (List ℚ))
  | [] => .error .valueError
  | x :: xs =>
    if x = [] then .ok xs
    else do
      let r ← pyRemoveEmpty xs
      .ok (x :: r)

/-- The literal `"},{"` line spliced in at each boundary. -/
def stitchLine : Line := ls "\x7d,\x7b"

/-- The source's `for line in linePosition: del tempList[line];
tempList.insert(line, "},{")`: each listed index is overwritten in place. -/
def applyBoundaries (L : List Line) (ps : List Nat) : List Line :=
  ps.foldl (fun acc p => acc.set p stitchLine) L

/-- Python `s.split('\n')`. -/
def pySplitNl (s : Line) : List Line :=
  s.foldr
    (fun c acc =>
      match acc with
      | a :: rest => if c = '\n' then [] :: a :: rest else (c :: a) :: rest
      | [] => [[c]])
    [[]]

/-- `'\n'.join(lines)`. -/
def joinLines : List Line → Line
  | [] => []
  | [x] => x
  | x :: xs => x ++ '\n' :: joinLines xs

/-- `formattingTheJSONFileAndReturnWavelengthAndSpectrum`, file I/O replaced
by explicit text in / text out: returns the rewritten line list together with
`wavelengthList` and `spectrumList`. -/
def formatting (content : Line) :
    Except PyErr (List Line × List (List ℚ) × List (List ℚ)) :=
  let tempList := pySplitNl content
  match fmtLoop tempList with
  | .error e => .error e
  | .ok st =>
    match pyRemoveEmpty st.wavelengthList with
    | .error e => .error e
    | .ok wl =>
      match pyRemoveEmpty st.spectrumList with
      | .error e => .error e
      | .ok sp =>
        let temp := applyBoundaries tempList st.linePosition
        match pyIndex temp 0 with
        | .error e => .error e
        | .ok first =>
          match pyIndex temp (-1) with
          | .error e => .error e
          | .ok last =>
            let out :=
              if !containsSub ['['] first && !containsSub [']'] last
              then ls "[" :: temp ++ [ls "]"] else temp
            .ok (out, wl, sp)

/-! ## Container Builder (`main` and its helpers) -/

/-- A parsed JSON value as the script consumes it: the fields of a reading
record are either literal strings or nested objects (association lists in
document order; parsed Python dicts have unique keys). -/
inductive JVal where
  | str (s : String)
  | obj (fields : List (String × JVal))

/-- A Python list comprehension over `Except`: left to right, the first
exception aborts the whole comprehension. -/
def exMapM (f : α → Except PyErr β) : List α → Except PyErr (List β)
  | [] => .ok []
  | x :: xs => do
    let y ← f x
    let ys ← exMapM f xs
    .ok (y :: ys)

/-- Lookup in a JSON object, first matching key (Python dict access). -/
def jLookup (fields : List (String × JVal)) (k : String) : Option JVal :=
  (fields.find? (fun p => p.1 = k)).map (fun p => p.2)

/-- Python `v[k]`: `KeyError` when the key is absent, `TypeError` when `v`
is a string (string indices must be integers). -/
def getField (v : JVal) (k : String) : Except PyErr JVal :=
  match v with
  | .str _ => .error .typeError
  | .obj fs =>
    match jLookup fs k with
    | some x => .ok x
    | none => .error .keyError

/-- Python `.encode('ascii','ignore')` on a value expected to be a string:
non-strings raise `AttributeError`; non-ASCII characters are dropped. -/
def asAsciiStr (v : JVal) : Except PyErr String :=
  match v with
  | .str s => .ok ⟨s.toList.filter (fun c => c.toNat < 128)⟩
  | .obj _ => .error .attributeError

/-- A value used as a plain string (e.g. a netCDF `str` variable cell or a
dict key): non-strings fail with `TypeError`. -/
def asStr (v : JVal) : Except PyErr String :=
  match v with
  | .str s => .ok s
  | .obj _ => .error .typeError

/-- `_UNIT_DICTIONARY` of the source. -/
def unitDictionary (u : String) : Option String :=
  if u = "m" then some "meter"
  else if u = "hPa" then some "hecto-Pascal"
  else if u = "DegCelsius" then some "Celsius"
  else if u = "s" then some "second"
  else if u = "m/s" then some "meter second-1"
  else if u = "mm/h" then some "milimeters hour-1"
  else if u = "relHumPerCent" then some "percent"
  else if u = "?mol/(m^2*s)" then some "micromole meters-2 second-1"
  else if u = "kilo Lux" then some "kilo Lux"
  else if u = "degrees" then some "degrees"
  else if u = "" then some ""
  else none

/-- `_NAMES` of the source. -/
def namesDictionary (n : String) : Option String :=
  if n = "sensor par" then some "Sensor Photosynthetical Active Radiation"
  else none

/-- `renameTheValue`: translate through the lookup tables, then replace
spaces by underscores. -/
def renameTheValue (name : String) : String :=
  let name :=
    match unitDictionary name with
    | some v => v
    | none =>
      match namesDictionary name with
      | some v => v
      | none => name
  ⟨name.toList.map (fun c => if c = ' ' then '_' else c)⟩

/-- `getListOfValue`: `float(rec[dataName]['value'].encode('ascii','ignore'))`
for every record. -/
def getListOfValue (arr : List JVal) (dataName : String) :
    Except PyErr (List ℚ) :=
  exMapM (fun rec => do
    let fld ← getField rec dataName
    let v ← getField fld "value"
    let s ← asAsciiStr v
    match pyFloat s.toList with
    | some q => .ok q
    | none => .error .valueError) arr

/-- `getListOfRawValue`: as `getListOfValue` but for the `rawValue` member. -/
def getListOfRawValue (arr : List JVal) (dataName : String) :
    Except PyErr (List ℚ) :=
  exMapM (fun rec => do
    let fld ← getField rec dataName
    let v ← getField fld "rawValue"
    let s ← asAsciiStr v
    match pyFloat s.toList with
    | some q => .ok q
    | none => .error .valueError) arr

/-- One half of `getSpectrometerInformation`:
`int(rec["spectrometer"][key])` for every record. -/
def spectrometerInts (arr : List JVal) (key : String) :
    Except PyErr (List ℤ) :=
  exMapM (fun rec => do
    let sp ← getField rec "spectrometer"
    let v ← getField sp key
    let s ← asStr v
    match pyInt s.toList with
    | some n => .ok n
    | none => .error .valueError) arr

/-- Data held by one netCDF variable in the model. -/
inductive VarData where
  | floats (xs : List ℚ)
  | matrix (m : List (List ℚ))
  | text (s : String)
  | textList (xs : List String)
  deriving DecidableEq

/-- One netCDF variable: name, dimension names, payload, optional units
attribute. -/
structure NCVar where
  name : String
  dims : List String
  data : VarData
  units : Option String := none
  deriving DecidableEq

/-- The output container: dimensions (`none` size = unbounded), variables in
creation order, and the global `history` attribute. -/
structure NCFile where
  dims : List (String × Option Nat) := []
  vars : List NCVar := []
  history : Option String := none
  deriving DecidableEq

/-- The `units` attribute of a generic numeric variable: absent when the
template descriptor has no `unit`, otherwise the `_UNIT_DICTIONARY` image of
the unit string (`KeyError` when not in the table). -/
def lookupUnits (fs : List (String × JVal)) :
    Except PyErr (Option String) :=
  match jLookup fs "unit" with
  | none => .ok none
  | some uv =>
    match asStr uv with
    | .error e => .error e
    | .ok u =>
      match unitDictionary u with
      | some tr => .ok (some tr)
      | none => .error .keyError

/-- The generic numeric branch of the template loop for one non-text,
non-`spectrometer` field: primary variable (with translated units), then
the `_rawValue` companion when the template descriptor has one. -/
def emitNumericField (dml : List JVal) (data : String)
    (fs : List (String × JVal)) : Except PyErr (List NCVar) :=
  match getListOfValue dml data with
  | .error e => .error e
  | .ok vals =>
    match lookupUnits fs with
    | .error e => .error e
    | .ok units =>
      let primary : NCVar :=
        { name := renameTheValue data, dims := ["time"],
          data := .floats vals, units := units }
      match jLookup fs "rawValue" with
      | none => .ok [primary]
      | some _ =>
        match getListOfRawValue dml data with
        | .error e => .error e
        | .ok raws =>
          .ok [primary,
               { name := renameTheValue data ++ "_rawValue", dims := ["time"],
                 data := .floats raws }]

/-- The dedicated spectrometer branch: the two fixed-name variables from
`getSpectrometerInformation`. -/
def emitSpectrometerVars (dml : List JVal) : Except PyErr (List NCVar) :=
  match spectrometerInts dml "maxFixedIntensity" with
  | .error e => .error e
  | .ok maxI =>
    match spectrometerInts dml "integration time in ?s" with
    | .error e => .error e
    | .ok intT =>
      .ok [{ name := "Spectrometer_maxFixedIntensity", dims := ["time"],
             data := .floats (maxI.map (fun n => mkRat n 1)) },
           { name := "Spectrometer_Integration_Time_In_Microseconds",
             dims := ["time"],
             data := .floats (intT.map (fun n => mkRat n 1)) }]

/-- Variables emitted by one iteration of `for data in dataMemberList[0]`:
the generic numeric branch (skipped for `spectrometer` and for text values),
the text branch, and the dedicated spectrometer branch, in source order. -/
def emitField (dml : List JVal) (data : String) (v : JVal) :
    Except PyErr (List NCVar) :=
  let part1 : Except PyErr (List NCVar) :=
    match v with
    | .obj fs =>
      if data = "spectrometer" then .ok []
      else emitNumericField dml data fs
    | .str s =>
      .ok [{ name := renameTheValue data, dims := [], data := .text s }]
  match part1 with
  | .error e => .error e
  | .ok p1 =>
    if data = "spectrometer" then
      match emitSpectrometerVars dml with
      | .error e => .error e
      | .ok p2 => .ok (p1 ++ p2)
    else .ok p1

/-- The template-record loop `for data in dataMemberList[0]`: emit the
variables of each field in order, extending the container; the first
exception aborts with the partially filled container. -/
def emitFields (dml : List JVal) (f : NCFile) :
    List (String × JVal) → Except (PyErr × NCFile) NCFile
  | [] => .ok f
  | p :: ps =>
    match emitField dml p.1 p.2 with
    | .ok vs => emitFields dml { f with vars := f.vars ++ vs } ps
    | .error e => .error (e, f)

/-- Attach the partial container to an error (the incomplete output artifact
left on disk when a build aborts). -/
def withFile (f : NCFile) (x : Except PyErr α) : Except (PyErr × NCFile) α :=
  match x with
  | .ok a => .ok a
  | .error e => .error (e, f)

/-- The `if wavelength and spectrum:` block of `main`: add the wavelength
dimension (sized by the first wavelength entry), the 1-D wavelength variable
(first entry only) and the 2-D spectrum variable. -/
def wavelengthBlock (f3 : NCFile) (wavelength spectrum : List (List ℚ)) :
    NCFile :=
  if wavelength ≠ [] ∧ spectrum ≠ [] then
    { f3 with
      dims := f3.dims ++ [("wavelength", some (wavelength.getD 0 []).length)],
      vars := f3.vars ++
        [{ name := "wavelength", dims := ["wavelength"],
           data := .floats (wavelength.getD 0 []) },
         { name := "spectrum", dims := ["time", "wavelength"],
           data := .matrix spectrum }] }
  else f3

/-- `main` up to (but excluding) the `history` assignment: extract the record
list and timestamps, create the time dimension and variable, emit variables
for every field of the first record, then the wavelength/spectrum block
(`if wavelength and spectrum:`; `None` and the empty list are both falsy). -/
def ncCore (arr : List JVal) (wavelength spectrum : List (List ℚ)) :
    Except (PyErr × NCFile) NCFile :=
  let f0 : NCFile := {}
  match withFile f0 (exMapM
      (fun j => getField j "environment_sensor_set_reading") arr) with
  | .error e => .error e
  | .ok dml =>
    match withFile f0 (exMapM (fun j => getField j "timestamp") dml) with
    | .error e => .error e
    | .ok tsv =>
      let f1 : NCFile := { dims := [("time", none)] }
      match withFile f1 (exMapM asStr tsv) with
      | .error e => .error e
      | .ok ts =>
        let f2 : NCFile := { f1 with
          vars := [{ name := "time", dims := ["time"], data := .textList ts }] }
        match dml.head? with
        | none => .error (.indexError, f2)
        | some tmpl =>
          let tfieldsE : Except (PyErr × NCFile) (List (String × JVal)) :=
            match tmpl with
            | .obj fs => .ok fs
            | .str s => if s.isEmpty then .ok [] else .error (.typeError, f2)
          match tfieldsE with
          | .error e => .error e
          | .ok tfields =>
            match emitFields dml f2 tfields with
            | .error e => .error e
            | .ok f3 => .ok (wavelengthBlock f3 wavelength spectrum)

/-- `main`: build the container, then set the `history` attribute
`recordTime + ': python ' + commandLine` and close. Either operand left at
its `None` default makes the string concatenation a `TypeError`. -/
def ncMain (arr : List JVal) (wavelength spectrum : List (List ℚ))
    (recordTime commandLine : Option String) :
    Except (PyErr × NCFile) NCFile :=
  match ncCore arr wavelength spectrum with
  | .error e => .error e
  | .ok f =>
    match recordTime with
    | none => .error (.typeError, f)
    | some r =>
      match commandLine with
      | none => .error (.typeError, f)
      | some c => .ok { f with history := some (r ++ ": python " ++ c) }

/-! ## Loop lemmas for the Repairer/Parser -/

/-- The two accumulator indices and list lengths move in lockstep. -/
def slotInv (s : FmtState) : Prop :=
  s.j = s.k ∧ s.j + 1 = s.wavelengthList.length ∧
    s.k + 1 = s.spectrumList.length

lemma appendAt_length (l : List (List ℚ)) (i : Nat) (v : ℚ) :
    (appendAt l i v).length = l.length := by
  simp [appendAt]

lemma fmtStep_slotInv {L : List Line} {s s' : FmtState} {i : Nat}
    (h : fmtStep L s i = .ok s') (hs : slotInv s) : slotInv s' := by
  obtain ⟨h1, h2, h3⟩ := hs
  unfold fmtStep at h
  dsimp only at h
  split at h
  · exact Except.noConfusion h
  · rename_i st2 he2
    split at h
    · exact Except.noConfusion h
    · rename_i st3 he3
      have hinv2 : slotInv st2 := by
        split at he2
        · split at he2
          · cases he2
            split <;>
              simp_all [slotInv, appendAt_length]
          · exact Except.noConfusion he2
        · cases he2
          split <;> simp_all [slotInv]
      obtain ⟨g1, g2, g3⟩ := hinv2
      have hinv3 : slotInv st3 := by
        split at he3
        · cases he3; exact ⟨g1, g2, g3⟩
        · split at he3
          · exact Except.noConfusion he3
          · split at he3 <;> cases he3
            · exact ⟨by simp [g1], by simp [g2], by simp [g3]⟩
            · exact ⟨g1, g2, g3⟩
      obtain ⟨k1, k2, k3⟩ := hinv3
      split at h
      · split at h
        · cases h
          exact ⟨k1, by simp [k2], by simp [appendAt_length, k3]⟩
        · exact Except.noConfusion h
      · cases h
        exact ⟨k1, k2, k3⟩

lemma runFrom_preserves {L : List Line} (P : FmtState → Prop)
    (hstep : ∀ s i s', fmtStep L s i = .ok s' → P s → P s') :
    ∀ {n a : Nat} {s t : FmtState},
      runFrom L s a n = .ok t → P s → P t := by
  intro n
  induction n with
  | zero => intro a s t h hp; cases h; exact hp
  | succ m ih =>
    intro a s t h hp
    unfold runFrom at h
    cases hx : fmtStep L s a with
    | error e => rw [hx] at h; exact Except.noConfusion h
    | ok s1 => rw [hx] at h; exact ih h (hstep s a s1 hx hp)

lemma runFrom_zero {L : List Line} {s : FmtState} {a : Nat} :
    runFrom L s a 0 = .ok s := rfl

lemma runFrom_succ {L : List Line} {s : FmtState} {a n : Nat} :
    runFrom L s a (n + 1) =
      match fmtStep L s a with
      | .ok s' => runFrom L s' (a + 1) n
      | .error e => .error e := rfl

lemma runFrom_add_ok {L : List Line} :
    ∀ {n : Nat} (m : Nat) {a : Nat} {s t : FmtState},
      runFrom L s a n = .ok t →
      runFrom L s a (n + m) = runFrom L t (a + n) m := by
  intro n
  induction n with
  | zero =>
    intro m a s t h
    cases h
    simp [Nat.zero_add]
  | succ p ih =>
    intro m a s t h
    rw [runFrom_succ] at h
    have hsm : p + 1 + m = (p + m) + 1 := by omega
    rw [hsm, runFrom_succ]
    cases hx : fmtStep L s a with
    | error e => rw [hx] at h; exact Except.noConfusion h
    | ok s1 =>
      rw [hx] at h
      dsimp only
      rw [ih m h]
      have hsa : a + 1 + p = a + (p + 1) := by omega
      rw [hsa]

lemma runFrom_add_error {L : List Line} :
    ∀ {n : Nat} (m : Nat) {a : Nat} {s : FmtState} {e : PyErr},
      runFrom L s a n = .error e →
      runFrom L s a (n + m) = .error e := by
  intro n
  induction n with
  | zero => intro m a s e h; exact Except.noConfusion h
  | succ p ih =>
    intro m a s e h
    rw [runFrom_succ] at h
    have hsm : p + 1 + m = (p + m) + 1 := by omega
    rw [hsm, runFrom_succ]
    cases hx : fmtStep L s a with
    | error e1 => rw [hx] at h; cases h; rfl
    | ok s1 =>
      rw [hx] at h
      dsimp only
      exact ih m h

lemma pyRemoveEmpty_length {l r : List (List ℚ)}
    (h : pyRemoveEmpty l = .ok r) : r.length + 1 = l.length := by
  induction l generalizing r with
  | nil => exact Except.noConfusion h
  | cons x xs ih =>
    unfold pyRemoveEmpty at h
    split at h
    · cases h; rfl
    · simp only [bind, Except.bind] at h
      cases hx : pyRemoveEmpty xs with
      | error e => rw [hx] at h; exact Except.noConfusion h
      | ok r' =>
        rw [hx] at h
        cases h
        simp [ih hx]

/-- C9: whenever the Repairer/Parser returns without error, the returned
WavelengthSeries and SpectrumSeries have equal length — the two accumulator
indices advance in lockstep, slots are appended to both lists together, and
exactly one empty slot is removed from each before returning. -/
theorem seriesLengthsEqual (content : Line)
    (out : List Line) (wl sp : List (List ℚ))
    (h : formatting content = .ok (out, wl, sp)) : wl.length = sp.length := by
  unfold formatting at h
  dsimp only at h
  cases hloop : fmtLoop (pySplitNl content) with
  | error e => rw [hloop] at h; exact Except.noConfusion h
  | ok st =>
    rw [hloop] at h
    dsimp only at h
    have hinv : slotInv st := by
      refine runFrom_preserves slotInv ?_ hloop ⟨rfl, rfl, rfl⟩
      intro s i s' hstep hp
      exact fmtStep_slotInv hstep hp
    obtain ⟨h1, h2, h3⟩ := hinv
    cases hw : pyRemoveEmpty st.wavelengthList with
    | error e => rw [hw] at h; exact Except.noConfusion h
    | ok wl' =>
      rw [hw] at h
      dsimp only at h
      cases hsp : pyRemoveEmpty st.spectrumList with
      | error e => rw [hsp] at h; exact Except.noConfusion h
      | ok sp' =>
        rw [hsp] at h
        dsimp only at h
        have hwlen := pyRemoveEmpty_length hw
        have hslen := pyRemoveEmpty_length hsp
        cases hp0 : pyIndex
            (applyBoundaries (pySplitNl content) st.linePosition) 0 with
        | error e => rw [hp0] at h; exact Except.noConfusion h
        | ok first =>
          rw [hp0] at h
          dsimp only at h
          cases hp1 : pyIndex
              (applyBoundaries (pySplitNl content) st.linePosition) (-1) with
          | error e => rw [hp1] at h; exact Except.noConfusion h
          | ok last =>
            rw [hp1] at h
            dsimp only at h
            have hpair : wl' = wl ∧ sp' = sp := by
              split at h <;> · cases h; exact ⟨rfl, rfl⟩
            obtain ⟨hwl, hspv⟩ := hpair
            subst hwl
            subst hspv
            omega

/-- Witness for C9: a concrete input on which the Repairer/Parser returns
without error. -/
theorem seriesLengthsEqual_witness :
    formatting (ls "a\nb\nc\nd") =
      .ok ([ls "[", ls "a", ls "b", ls "c", ls "d", ls "]"], [], []) ∧
    ([] : List (List ℚ)).length = ([] : List (List ℚ)).length :=
  ⟨by decide, seriesLengthsEqual (ls "a\nb\nc\nd")
    [ls "[", ls "a", ls "b", ls "c", ls "d", ls "]"] [] [] (by decide)⟩

/-! ## Shape lemmas: `fmtStep` on each class of line -/

lemma pyIndex_ge4 {L : List Line} {i : Nat} (h4 : 4 ≤ i) (hi : i < L.length) :
    pyIndex L ((i : Int) - 4) = .ok (L.getD (i - 4) []) := by
  unfold pyIndex
  have hnn : ¬((i : Int) - 4 < 0) := by omega
  rw [if_neg hnn]
  have hc : 0 ≤ (i : Int) - 4 ∧ (i : Int) - 4 < (L.length : Int) := by omega
  rw [if_pos hc]
  have : ((i : Int) - 4).toNat = i - 4 := by omega
  rw [this]

lemma pyIndex_wrap {L : List Line} {i : Nat} (hlt : i < 4)
    (h4 : 4 ≤ L.length) :
    pyIndex L ((i : Int) - 4) = .ok (L.getD (L.length - 4 + i) []) := by
  unfold pyIndex
  have hneg : (i : Int) - 4 < 0 := by omega
  rw [if_pos hneg]
  have hc : 0 ≤ (i : Int) - 4 + L.length ∧
      (i : Int) - 4 + L.length < (L.length : Int) := by omega
  rw [if_pos hc]
  have : ((i : Int) - 4 + (L.length : Int)).toNat = L.length - 4 + i := by
    omega
  rw [this]

lemma pyIndex_ok_exists {L : List Line} {i : Nat} (h4 : 4 ≤ L.length)
    (hi : i < L.length) :
    ∃ back, pyIndex L ((i : Int) - 4) = .ok back := by
  rcases Nat.lt_or_ge i 4 with h | h
  · exact ⟨_, pyIndex_wrap h h4⟩
  · exact ⟨_, pyIndex_ge4 h hi⟩

/-- A line with a comma, no wavelength key, no spectrum key and no effective
marker leaves the state unchanged (the detection guard fails on the comma). -/
lemma fmtStep_comma_quiet {L : List Line} {s : FmtState} {i : Nat} {line : Line}
    (hline : L.getD i [] = line)
    (h4 : 4 ≤ L.length) (hi : i < L.length)
    (hwl : containsSub wlKey line = false)
    (hsp : containsSub spKey line = false)
    (hmk : (containsSub markerKey line && decide (2 < i)) = false)
    (hcm : containsSub [','] line = true) :
    fmtStep L s i = .ok s := by
  obtain ⟨back, hback⟩ := pyIndex_ok_exists h4 hi
  unfold fmtStep
  rw [hline]
  dsimp only
  simp only [hmk, hwl, hback, hsp, hcm]
  simp

/-- A line with no keys, no comma requirement, whose 4-back line has no
wavelength key, leaves the state unchanged. -/
lemma fmtStep_quiet {L : List Line} {s : FmtState} {i : Nat}
    {line back : Line}
    (hline : L.getD i [] = line)
    (hwl : containsSub wlKey line = false)
    (hsp : containsSub spKey line = false)
    (hmk : (containsSub markerKey line && decide (2 < i)) = false)
    (hback : pyIndex L ((i : Int) - 4) = .ok back)
    (hbwl : containsSub wlKey back = false) :
    fmtStep L s i = .ok s := by
  unfold fmtStep
  rw [hline]
  dsimp only
  simp only [hmk, hwl, hback, hbwl, hsp]
  simp

/-- A marker line after index 2 appends `i - 1` to `linePosition` and does
nothing else (its 4-back line has no wavelength key, and it has no comma,
but the guard fails on the lookback). -/
lemma fmtStep_marker {L : List Line} {s : FmtState} {i : Nat}
    {line back : Line}
    (hline : L.getD i [] = line)
    (hmk : (containsSub markerKey line && decide (2 < i)) = true)
    (hwl : containsSub wlKey line = false)
    (hsp : containsSub spKey line = false)
    (hback : pyIndex L ((i : Int) - 4) = .ok back)
    (hbwl : containsSub wlKey back = false) :
    fmtStep L s i =
      .ok { s with linePosition := s.linePosition ++ [i - 1] } := by
  unfold fmtStep
  rw [hline]
  dsimp only
  simp only [hmk, hwl, hback, hbwl, hsp]
  simp

/-- A wavelength line appends the extracted value to the current slot. -/
lemma fmtStep_wl {L : List Line} {s : FmtState} {i : Nat} {line : Line}
    {v : ℚ}
    (hline : L.getD i [] = line)
    (hwl : containsSub wlKey line = true)
    (hsp : containsSub spKey line = false)
    (hmk : (containsSub markerKey line && decide (2 < i)) = false)
    (hv : pyFloat (extractNum line) = some v) :
    fmtStep L s i =
      .ok { s with wavelengthList := appendAt s.wavelengthList s.j v } := by
  unfold fmtStep
  rw [hline]
  dsimp only
  simp only [hmk, hwl, hv, hsp]
  simp

/-- A spectrum line (with a comma, so the detection guard fails) appends the
extracted value to the current spectrum slot. -/
lemma fmtStep_sp {L : List Line} {s : FmtState} {i : Nat} {line : Line}
    {v : ℚ}
    (hline : L.getD i [] = line)
    (h4 : 4 ≤ L.length) (hi : i < L.length)
    (hwl : containsSub wlKey line = false)
    (hsp : containsSub spKey line = true)
    (hmk : (containsSub markerKey line && decide (2 < i)) = false)
    (hcm : containsSub [','] line = true)
    (hv : pyFloat (extractNum line) = some v) :
    fmtStep L s i =
      .ok { s with spectrumList := appendAt s.spectrumList s.k v } := by
  obtain ⟨back, hback⟩ := pyIndex_ok_exists h4 hi
  unfold fmtStep
  rw [hline]
  dsimp only
  simp only [hmk, hwl, hback, hsp, hcm, hv]
  simp

/-- The array-end detection fires: a line with no keys and no comma whose
4-back line has the wavelength key opens a fresh slot in both series. -/
lemma fmtStep_fire {L : List Line} {s : FmtState} {i : Nat}
    {line back : Line}
    (hline : L.getD i [] = line)
    (hwl : containsSub wlKey line = false)
    (hsp : containsSub spKey line = false)
    (hmk : (containsSub markerKey line && decide (2 < i)) = false)
    (hband : containsSub bandKey line = false)
    (hcm : containsSub [','] line = false)
    (hback : pyIndex L ((i : Int) - 4) = .ok back)
    (hbwl : containsSub wlKey back = true) :
    fmtStep L s i =
      .ok { s with
              wavelengthList := s.wavelengthList ++ [[]], j := s.j + 1,
              spectrumList := s.spectrumList ++ [[]], k := s.k + 1 } := by
  unfold fmtStep
  rw [hline]
  dsimp only
  simp only [hmk, hwl, hback, hbwl, hband, hcm, hsp]
  simp

/-! ## Run-segment lemmas -/

lemma getD_append_len (ws : List (List ℚ)) (x : List ℚ) (t : List (List ℚ)) :
    (ws ++ x :: t).getD ws.length [] = x := by
  induction ws with
  | nil => rfl
  | cons a as ih => simpa using ih

lemma set_append_len (ws : List (List ℚ)) (x y : List ℚ)
    (t : List (List ℚ)) :
    (ws ++ x :: t).set ws.length y = ws ++ y :: t := by
  induction ws with
  | nil => rfl
  | cons a as ih => simpa using ih

lemma appendAt_last (ws : List (List ℚ)) (acc : List ℚ) (v : ℚ) :
    appendAt (ws ++ [acc]) ws.length v = ws ++ [acc ++ [v]] := by
  unfold appendAt
  rw [getD_append_len, set_append_len]

/-- A run of indices on which `fmtStep` is a no-op for every state. -/
lemma runQuiet {L : List Line} :
    ∀ {n a : Nat} {s : FmtState},
      (∀ (st : FmtState) m, m < n → fmtStep L st (a + m) = .ok st) →
      runFrom L s a n = .ok s := by
  intro n
  induction n with
  | zero => intro a s _; rfl
  | succ p ih =>
    intro a s hq
    rw [runFrom_succ]
    have h0 := hq s 0 (by omega)
    rw [Nat.add_zero] at h0
    rw [h0]
    dsimp only
    refine ih ?_
    intro st m hm
    have := hq st (m + 1) (by omega)
    rwa [show a + (m + 1) = a + 1 + m by omega] at this

/-- A run of wavelength lines: each appends its value to the last slot. -/
lemma runWlRun {L : List Line} :
    ∀ (vals : List ℚ) {a : Nat} {s : FmtState} {ws : List (List ℚ)}
      {acc : List ℚ},
      (∀ (st : FmtState) m, m < vals.length →
        fmtStep L st (a + m) =
          .ok { st with
                  wavelengthList := appendAt st.wavelengthList st.j
                    (vals.getD m 0) }) →
      s.wavelengthList = ws ++ [acc] → s.j = ws.length →
      runFrom L s a vals.length =
        .ok { s with wavelengthList := ws ++ [acc ++ vals] } := by
  intro vals
  induction vals with
  | nil =>
    intro a s ws acc _ hw _
    rw [List.append_nil, ← hw]
    rfl
  | cons v vs ih =>
    intro a s ws acc hstep hw hj
    rw [show (v :: vs).length = vs.length + 1 from rfl, runFrom_succ]
    have h0 := hstep s 0 (by simp)
    rw [Nat.add_zero] at h0
    rw [h0]
    dsimp only
    have hstep' : ∀ (st : FmtState) m, m < vs.length →
        fmtStep L st (a + 1 + m) =
          .ok { st with
                  wavelengthList := appendAt st.wavelengthList st.j
                    (vs.getD m 0) } := by
      intro st m hm
      have := hstep st (m + 1)
        (by simp only [List.length_cons]; omega)
      rwa [show a + (m + 1) = a + 1 + m by omega] at this
    rw [show ((v :: vs).getD 0 0) = v from rfl]
    have happ : appendAt s.wavelengthList s.j v = ws ++ [acc ++ [v]] := by
      rw [hw, hj, appendAt_last]
    rw [happ]
    have hrec := ih (a := a + 1)
      (s := { s with wavelengthList := ws ++ [acc ++ [v]] })
      hstep' (show _ = ws ++ [acc ++ [v]] from rfl) hj
    rw [hrec]
    simp

/-- A run of spectrum lines: each appends its value to the last slot. -/
lemma runSpRun {L : List Line} :
    ∀ (vals : List ℚ) {a : Nat} {s : FmtState} {ss : List (List ℚ)}
      {acc : List ℚ},
      (∀ (st : FmtState) m, m < vals.length →
        fmtStep L st (a + m) =
          .ok { st with
                  spectrumList := appendAt st.spectrumList st.k
                    (vals.getD m 0) }) →
      s.spectrumList = ss ++ [acc] → s.k = ss.length →
      runFrom L s a vals.length =
        .ok { s with spectrumList := ss ++ [acc ++ vals] } := by
  intro vals
  induction vals with
  | nil =>
    intro a s ss acc _ hw _
    rw [List.append_nil, ← hw]
    rfl
  | cons v vs ih =>
    intro a s ss acc hstep hw hk
    rw [show (v :: vs).length = vs.length + 1 from rfl, runFrom_succ]
    have h0 := hstep s 0 (by simp)
    rw [Nat.add_zero] at h0
    rw [h0]
    dsimp only
    have hstep' : ∀ (st : FmtState) m, m < vs.length →
        fmtStep L st (a + 1 + m) =
          .ok { st with
                  spectrumList := appendAt st.spectrumList st.k
                    (vs.getD m 0) } := by
      intro st m hm
      have := hstep st (m + 1)
        (by simp only [List.length_cons]; omega)
      rwa [show a + (m + 1) = a + 1 + m by omega] at this
    rw [show ((v :: vs).getD 0 0) = v from rfl]
    have happ : appendAt s.spectrumList s.k v = ss ++ [acc ++ [v]] := by
      rw [hw, hk, appendAt_last]
    rw [happ]
    have hrec := ih (a := a + 1)
      (s := { s with spectrumList := ss ++ [acc ++ [v]] })
      hstep' (show _ = ss ++ [acc ++ [v]] from rfl) hk
    rw [hrec]
    simp

/-! ## Line positions: which lines the loop marks -/

/-- Marks produced while scanning indices `a, ..., a+n-1`: for every line
containing the record marker at an index above 2, the preceding index. -/
def marksRange (L : List Line) (a n : Nat) : List Nat :=
  ((List.range' a n).filter
    (fun i => containsSub markerKey (L.getD i []) && decide (2 < i))).map
    (fun i => i - 1)

/-- The full mark list of the loop as the source computes it. -/
def codeMarks (L : List Line) : List Nat := marksRange L 0 L.length

/-- The mark list the specification describes: a line is marked when the
following line re-introduces the marker after an earlier occurrence. -/
def specMarks (L : List Line) : List Nat :=
  ((List.range L.length).filter
    (fun i => containsSub markerKey (L.getD i []) &&
      (List.range i).any (fun j => containsSub markerKey (L.getD j [])))).map
    (fun i => i - 1)

lemma fmtStep_linePosition {L : List Line} {s s' : FmtState} {i : Nat}
    (h : fmtStep L s i = .ok s') :
    s'.linePosition = s.linePosition ++
      (if (containsSub markerKey (L.getD i []) && decide (2 < i)) = true
       then [i - 1] else []) := by
  unfold fmtStep at h
  dsimp only at h
  by_cases hc : (containsSub markerKey (L.getD i []) && decide (2 < i)) = true
  · rw [if_pos hc] at h
    rw [if_pos hc]
    split at h
    · exact Except.noConfusion h
    · rename_i st2 he2
      split at h
      · exact Except.noConfusion h
      · rename_i st3 he3
        have h2 : st2.linePosition = s.linePosition ++ [i - 1] := by
          split at he2
          · split at he2
            · cases he2; rfl
            · exact Except.noConfusion he2
          · cases he2; rfl
        have h3 : st3.linePosition = st2.linePosition := by
          split at he3
          · cases he3; rfl
          · split at he3
            · exact Except.noConfusion he3
            · split at he3 <;> cases he3 <;> rfl
        split at h
        · split at h
          · cases h; rw [← h2, ← h3]
          · exact Except.noConfusion h
        · cases h; rw [← h2, ← h3]
  · rw [if_neg hc] at h
    rw [if_neg hc]
    split at h
    · exact Except.noConfusion h
    · rename_i st2 he2
      split at h
      · exact Except.noConfusion h
      · rename_i st3 he3
        have h2 : st2.linePosition = s.linePosition := by
          split at he2
          · split at he2
            · cases he2; rfl
            · exact Except.noConfusion he2
          · cases he2; rfl
        have h3 : st3.linePosition = st2.linePosition := by
          split at he3
          · cases he3; rfl
          · split at he3
            · exact Except.noConfusion he3
            · split at he3 <;> cases he3 <;> rfl
        split at h
        · split at h
          · cases h; rw [List.append_nil, ← h2, ← h3]
          · exact Except.noConfusion h
        · cases h; rw [List.append_nil, ← h2, ← h3]

lemma runFrom_linePosition {L : List Line} :
    ∀ {n a : Nat} {s t : FmtState},
      runFrom L s a n = .ok t →
      t.linePosition = s.linePosition ++ marksRange L a n := by
  intro n
  induction n with
  | zero =>
    intro a s t h
    cases h
    simp [marksRange]
  | succ p ih =>
    intro a s t h
    rw [runFrom_succ] at h
    cases hx : fmtStep L s a with
    | error e => rw [hx] at h; exact Except.noConfusion h
    | ok s1 =>
      rw [hx] at h
      dsimp only at h
      have h1 := fmtStep_linePosition hx
      have h2 := ih h
      have hr : marksRange L a (p + 1) =
          (if (containsSub markerKey (L.getD a []) && decide (2 < a)) = true
           then [a - 1] else []) ++ marksRange L (a + 1) p := by
        unfold marksRange
        rw [List.range'_succ, List.filter_cons]
        split <;> simp
      rw [h2, h1, hr, List.append_assoc]

lemma getD_set_ne (l : List Line) (q p : Nat) (x : Line) (h : q ≠ p) :
    (l.set q x).getD p [] = l.getD p [] := by
  induction l generalizing q p with
  | nil => rfl
  | cons a t ih =>
    cases q with
    | zero =>
      cases p with
      | zero => exact absurd rfl h
      | succ p => rfl
    | succ q =>
      cases p with
      | zero => rfl
      | succ p =>
        simp only [List.set, List.getD_cons_succ]
        exact ih q p (fun hc => h (by rw [hc]))

lemma getD_set_self (l : List Line) (q : Nat) (x : Line) (h : q < l.length) :
    (l.set q x).getD q [] = x := by
  induction l generalizing q with
  | nil => simp at h
  | cons a t ih =>
    cases q with
    | zero => rfl
    | succ q =>
      simp only [List.set, List.getD_cons_succ]
      exact ih q (by simpa using h)

lemma applyBoundaries_cons (L : List Line) (q : Nat) (qs : List Nat) :
    applyBoundaries L (q :: qs) = applyBoundaries (L.set q stitchLine) qs :=
  rfl

lemma applyBoundaries_length (L : List Line) (ps : List Nat) :
    (applyBoundaries L ps).length = L.length := by
  induction ps generalizing L with
  | nil => rfl
  | cons q qs ih => rw [applyBoundaries_cons, ih, List.length_set]

lemma applyBoundaries_getD_not_mem :
    ∀ {ps : List Nat} {L : List Line} {p : Nat}, p ∉ ps →
      (applyBoundaries L ps).getD p [] = L.getD p [] := by
  intro ps
  induction ps with
  | nil => intro L p _; rfl
  | cons q qs ih =>
    intro L p hp
    rw [applyBoundaries_cons]
    have hq : q ≠ p := fun hc => hp (hc ▸ List.Mem.head _)
    rw [ih (fun hc => hp (List.Mem.tail _ hc))]
    exact getD_set_ne L q p stitchLine hq

lemma applyBoundaries_getD_mem :
    ∀ {ps : List Nat} {L : List Line} {p : Nat}, ps.Nodup →
      (∀ x ∈ ps, x < L.length) → p ∈ ps →
      (applyBoundaries L ps).getD p [] = stitchLine := by
  intro ps
  induction ps with
  | nil => intro L p _ _ hp; exact absurd hp (List.not_mem_nil p)
  | cons q qs ih =>
    intro L p hnd hlt hp
    rw [applyBoundaries_cons]
    rcases List.mem_cons.mp hp with hpq | hptail
    · subst hpq
      rw [applyBoundaries_getD_not_mem (List.nodup_cons.mp hnd).1]
      exact getD_set_self L p stitchLine (hlt p (List.Mem.head _))
    · refine ih (List.nodup_cons.mp hnd).2 ?_ hptail
      intro x hx
      rw [List.length_set]
      exact hlt x (List.Mem.tail _ hx)

lemma codeMarks_bound (L : List Line) : ∀ p ∈ codeMarks L, p < L.length := by
  intro p hp
  unfold codeMarks marksRange at hp
  obtain ⟨i, hi, rfl⟩ := List.mem_map.mp hp
  obtain ⟨hmem, hcond⟩ := List.mem_filter.mp hi
  have hrange : 0 ≤ i ∧ i < 0 + L.length := List.mem_range'_1.mp hmem
  omega

lemma codeMarks_nodup (L : List Line) : (codeMarks L).Nodup := by
  unfold codeMarks marksRange
  have hnd : ((List.range' 0 L.length).filter
      (fun i => containsSub markerKey (L.getD i []) && decide (2 < i))).Nodup :=
    List.Nodup.filter _ (List.nodup_range' 0 L.length)
  refine List.Nodup.map_on ?_ hnd
  intro x hx y hy hxy
  have hxc := (List.mem_filter.mp hx).2
  have hyc := (List.mem_filter.mp hy).2
  have hx2 : 2 < x := of_decide_eq_true (Bool.and_elim_right hxc)
  have hy2 : 2 < y := of_decide_eq_true (Bool.and_elim_right hyc)
  omega

/-- C5 (amended): on every input where the loop completes, the marked line
set is exactly `{ i - 1 | line i contains the record marker and i > 2 }` —
the source tests the line index, not whether an earlier occurrence of the
marker exists — and repair replaces exactly the marked lines with the
literal `"},{"`, leaving every other line unchanged. -/
theorem boundaryMarkingByIndex (L : List Line) (st : FmtState)
    (h : fmtLoop L = .ok st) :
    st.linePosition = codeMarks L ∧
    (∀ p ∈ codeMarks L,
      (applyBoundaries L st.linePosition).getD p [] = stitchLine) ∧
    (∀ p, p ∉ codeMarks L →
      (applyBoundaries L st.linePosition).getD p [] = L.getD p []) := by
  unfold fmtLoop at h
  have hlp : st.linePosition = codeMarks L := by
    have hr := runFrom_linePosition h
    simpa [fmtInit, codeMarks] using hr
  refine ⟨hlp, ?_, ?_⟩
  · intro p hp
    rw [hlp]
    exact applyBoundaries_getD_mem (codeMarks_nodup L) (codeMarks_bound L) hp
  · intro p hp
    rw [hlp]
    exact applyBoundaries_getD_not_mem hp

/-- The marker line of the raw dialect. -/
def markerLine : Line := ls "\"environment_sensor_set_reading\": \x7b"

/-- Input for the C5 counterexample: the first (and only) occurrence of the
record marker sits at index 3. -/
def ex5Lines : List Line :=
  [ls "a", ls "b", ls "c", markerLine, ls "\x7d", ls "\x7d"]

/-- C5 counterexample: on `ex5Lines` the first occurrence of the marker is
at index 3, so the claim ("mark only lines that re-introduce the marker
after the first occurrence, and no others") predicts no marks; the loop
nevertheless marks line 2 (its test is `i > 2`, not "after the first
occurrence"). -/
theorem boundaryMarkingByIndex_counterexample :
    ∃ st, fmtLoop ex5Lines = .ok st ∧ st.linePosition = [2] ∧
      specMarks ex5Lines = [] ∧ st.linePosition ≠ specMarks ex5Lines :=
  ⟨⟨[2], [[]], [[]], 0, 0⟩, by decide, rfl, by decide, by decide⟩

/-- Witness for C5 (amended) at `ex5Lines`. -/
theorem boundaryMarkingByIndex_witness :
    (FmtState.mk [2] [[]] [[]] 0 0).linePosition = codeMarks ex5Lines ∧
    (∀ p ∈ codeMarks ex5Lines,
      (applyBoundaries ex5Lines
        (FmtState.mk [2] [[]] [[]] 0 0).linePosition).getD p []
        = stitchLine) ∧
    (∀ p, p ∉ codeMarks ex5Lines →
      (applyBoundaries ex5Lines
        (FmtState.mk [2] [[]] [[]] 0 0).linePosition).getD p []
        = ex5Lines.getD p []) :=
  boundaryMarkingByIndex ex5Lines ⟨[2], [[]], [[]], 0, 0⟩ (by decide)

/-! ## C8: the numeric extraction convention and failure propagation -/

lemma dropWhile_of_findCharIdx {c : Char} :
    ∀ {l : Line} {p : Nat}, findCharIdx c l = some p →
      l.dropWhile (fun d => !(d == c)) = l.drop p := by
  intro l
  induction l with
  | nil => intro p h; exact Option.noConfusion h
  | cons d t ih =>
    intro p h
    unfold findCharIdx at h
    by_cases hd : d = c
    · rw [if_pos hd] at h
      cases h
      subst hd
      simp [List.dropWhile]
    · rw [if_neg hd] at h
      cases hfc : findCharIdx c t with
      | none => rw [hfc] at h; exact Option.noConfusion h
      | some q =>
        rw [hfc] at h
        cases h
        rw [List.dropWhile_cons, if_pos (by simp [hd]), ih hfc]
        rfl

lemma findCharIdx_of_mem {c : Char} :
    ∀ {l : Line}, c ∈ l → ∃ p, findCharIdx c l = some p := by
  intro l
  induction l with
  | nil => intro h; exact absurd h (List.not_mem_nil c)
  | cons d t ih =>
    intro h
    unfold findCharIdx
    by_cases hd : d = c
    · exact ⟨0, by rw [if_pos hd]⟩
    · rcases List.mem_cons.mp h with hc | hc
      · exact absurd hc.symm hd
      · obtain ⟨q, hq⟩ := ih hc
        exact ⟨q + 1, by rw [if_neg hd, hq]; rfl⟩

lemma dropLast_dropLast (l : Line) :
    l.dropLast.dropLast = l.take (l.length - 2) := by
  rw [List.dropLast_eq_take, List.dropLast_eq_take, List.length_take,
    List.take_take]
  congr 1
  omega

lemma extractNum_after_colon {l : Line} (h : ':' ∈ l) :
    extractNum l =
      ((l.dropWhile (fun d => !(d == ':'))).drop 1).dropLast.dropLast := by
  obtain ⟨p, hp⟩ := findCharIdx_of_mem h
  rw [dropWhile_of_findCharIdx hp, List.drop_drop, dropLast_dropLast,
    List.length_drop]
  unfold extractNum pyFind
  rw [hp]
  have h1 : ((p : Int) + 1).toNat = p + 1 := by omega
  rw [h1, List.drop_take]
  have h2 : p + 1 = 1 + p := by omega
  rw [h2]
  congr 1
  omega

/-- A wavelength or spectrum line whose extracted substring does not convert
makes the iteration raise `ValueError`. -/
lemma fmtStep_badNumber {L : List Line} {s : FmtState} {i : Nat}
    (h4 : 4 ≤ L.length) (hi : i < L.length)
    (hkey : containsSub wlKey (L.getD i []) = true ∨
      containsSub spKey (L.getD i []) = true)
    (hbad : pyFloat (extractNum (L.getD i [])) = none) :
    fmtStep L s i = .error .valueError := by
  by_cases hwl : containsSub wlKey (L.getD i []) = true
  · unfold fmtStep
    dsimp only
    simp only [hwl, hbad]
    simp
  · have hwlf : containsSub wlKey (L.getD i []) = false :=
      Bool.eq_false_iff.mpr hwl
    have hsp : containsSub spKey (L.getD i []) = true := by
      rcases hkey with hk | hk
      · exact absurd hk hwl
      · exact hk
    obtain ⟨back, hback⟩ := pyIndex_ok_exists h4 hi
    unfold fmtStep
    dsimp only
    rw [hwlf, hback, hsp, hbad]
    rw [if_neg (fun hc : (false = true) => Bool.noConfusion hc)]
    dsimp only
    rw [if_neg (fun hc : (false = true) => Bool.noConfusion hc)]
    by_cases hg : (containsSub wlKey back && !containsSub bandKey (L.getD i [])
        && !containsSub [','] (L.getD i [])) = true
    · rw [if_pos hg]; rfl
    · rw [if_neg hg]; rfl

/-- With at least four lines, `pyIndex` never fails, so every loop error is
a `ValueError` from a numeric conversion. -/
lemma fmtStep_error_valueError {L : List Line} {s : FmtState} {i : Nat}
    {e : PyErr} (h4 : 4 ≤ L.length) (hi : i < L.length)
    (h : fmtStep L s i = .error e) : e = .valueError := by
  obtain ⟨back, hback⟩ := pyIndex_ok_exists h4 hi
  unfold fmtStep at h
  dsimp only at h
  rw [hback] at h
  by_cases hwl : containsSub wlKey (L.getD i []) = true
  · cases hv : pyFloat (extractNum (L.getD i [])) with
    | none =>
      rw [hv, if_pos hwl] at h
      try dsimp only at h
      cases h
      rfl
    | some v =>
      rw [hv, if_pos hwl] at h
      try dsimp only at h
      rw [if_pos hwl] at h
      try dsimp only at h
      by_cases hsp : containsSub spKey (L.getD i []) = true
      · rw [if_pos hsp] at h
        try dsimp only at h
        exact Except.noConfusion h
      · rw [if_neg hsp] at h
        exact Except.noConfusion h
  · rw [if_neg hwl] at h
    try dsimp only at h
    rw [if_neg hwl] at h
    try dsimp only at h
    by_cases hg : (containsSub wlKey back && !containsSub bandKey (L.getD i [])
        && !containsSub [','] (L.getD i [])) = true
    · rw [if_pos hg] at h
      try dsimp only at h
      by_cases hsp : containsSub spKey (L.getD i []) = true
      · rw [if_pos hsp] at h
        cases hv : pyFloat (extractNum (L.getD i [])) with
        | none => rw [hv] at h; try dsimp only at h; cases h; rfl
        | some v =>
          rw [hv] at h
          try dsimp only at h
          exact Except.noConfusion h
      · rw [if_neg hsp] at h
        exact Except.noConfusion h
    · rw [if_neg hg] at h
      try dsimp only at h
      by_cases hsp : containsSub spKey (L.getD i []) = true
      · rw [if_pos hsp] at h
        cases hv : pyFloat (extractNum (L.getD i [])) with
        | none => rw [hv] at h; try dsimp only at h; cases h; rfl
        | some v =>
          rw [hv] at h
          try dsimp only at h
          exact Except.noConfusion h
      · rw [if_neg hsp] at h
        exact Except.noConfusion h

lemma runFrom_error_valueError {L : List Line} :
    ∀ {n a : Nat} {s : FmtState} {e : PyErr}, 4 ≤ L.length →
      a + n ≤ L.length → runFrom L s a n = .error e → e = .valueError := by
  intro n
  induction n with
  | zero => intro a s e _ _ h; exact Except.noConfusion h
  | succ p ih =>
    intro a s e h4 hb h
    rw [runFrom_succ] at h
    cases hx : fmtStep L s a with
    | error e1 =>
      rw [hx] at h
      cases h
      exact fmtStep_error_valueError h4 (by omega) hx
    | ok s1 =>
      rw [hx] at h
      dsimp only at h
      exact ih h4 (by omega) h

lemma runFrom_hits_bad {L : List Line} {i : Nat}
    (hbad : ∀ st, fmtStep L st i = .error .valueError) :
    ∀ {n a : Nat} {s : FmtState}, a ≤ i → i < a + n →
      isOkB (runFrom L s a n) = false := by
  intro n
  induction n with
  | zero => intro a s hle hlt; omega
  | succ p ih =>
    intro a s hle hlt
    rw [runFrom_succ]
    by_cases hai : a = i
    · subst hai
      rw [hbad s]
      rfl
    · cases hx : fmtStep L s a with
      | error e => rfl
      | ok s1 =>
        dsimp only
        exact ih (by omega) (by omega)

/-- C8: the numeric value of a wavelength/spectrum line is taken from the
substring strictly after the first colon up to (but excluding) the last two
characters of the line; when that substring is not a valid number, the whole
repair pass aborts with a `ValueError` instead of skipping or defaulting the
line. -/
theorem numericExtractionConvention :
    (∀ l : Line, ':' ∈ l →
      extractNum l =
        ((l.dropWhile (fun d => !(d == ':'))).drop 1).dropLast.dropLast) ∧
    (∀ (L : List Line) (i : Nat), 4 ≤ L.length → i < L.length →
      (containsSub wlKey (L.getD i []) = true ∨
        containsSub spKey (L.getD i []) = true) →
      pyFloat (extractNum (L.getD i [])) = none →
      fmtLoop L = .error .valueError) := by
  refine ⟨fun l h => extractNum_after_colon h, ?_⟩
  intro L i h4 hi hkey hbad
  have hbadstep : ∀ st, fmtStep L st i = .error .valueError :=
    fun st => fmtStep_badNumber h4 hi hkey hbad
  have hnok := runFrom_hits_bad hbadstep (n := L.length) (a := 0)
    (s := fmtInit) (by omega) (by omega)
  unfold fmtLoop
  cases hr : runFrom L fmtInit 0 L.length with
  | ok t => rw [hr] at hnok; exact absurd hnok (by simp [isOkB])
  | error e =>
    rw [runFrom_error_valueError h4 (by omega) hr]

/-- A wavelength line whose substring is not numeric. -/
def ex8Lines : List Line :=
  [ls "\"wavelength\": abc, ", ls "x", ls "y", ls "z"]

/-- Witness for C8 at concrete lines. -/
theorem numericExtractionConvention_witness :
    extractNum (ls "\"wavelength\": 337.1, ") =
      (((ls "\"wavelength\": 337.1, ").dropWhile
        (fun d => !(d == ':'))).drop 1).dropLast.dropLast ∧
    fmtLoop ex8Lines = .error .valueError :=
  ⟨numericExtractionConvention.1 _ (by decide),
   numericExtractionConvention.2 ex8Lines 0 (by decide) (by decide)
     (Or.inl (by decide)) (by decide)⟩

/-! ## A canonical well-formed raw log dialect

The raw dialect the script was written for is fixed here explicitly: a file
is `{` followed by record blocks, each block being the marker line, a
timestamp line, scalar field lines, the spectrometer header lines, one
wavelength key line per wavelength sample, a nested-object opener ending
the wavelength run, one spectrum key line per spectrum sample, and four
closing-brace lines (the last of which is the line the repair rewrites into
`"},{"` between records). -/

/-- No newline inside the line (so that join/split round-trips). -/
def cleanLine (l : Line) : Bool := l.all (fun c => !(c = '\n'))

/-- No brace characters in the line. -/
def braceFree (l : Line) : Bool :=
  l.all (fun c => !(c = '\x7b') && !(c = '\x7d'))

/-- Scanning the line from (object-relative) depth `d` never closes the
object: every `}` is met at depth at least 2. -/
def safeFromB : Line → Nat → Bool
  | [], _ => true
  | c :: cs, d =>
    if c = '\x7d' then decide (2 ≤ d) && safeFromB cs (d - 1)
    else if c = '\x7b' then safeFromB cs (d + 1)
    else safeFromB cs d

/-- Depth after scanning the whole line from depth `d`. -/
def endDepth : Line → Nat → Nat
  | [], d => d
  | c :: cs, d =>
    if c = '\x7d' then endDepth cs (d - 1)
    else if c = '\x7b' then endDepth cs (d + 1)
    else endDepth cs d

/-- `"{"`. -/
def openBraceLine : Line := ls "\x7b"

/-- `"}"`. -/
def closeBraceLine : Line := ls "\x7d"

/-- The timestamp line of a record. -/
def tsLine (t : Line) : Line := ls "\"timestamp\": \"" ++ t ++ ls "\","

/-- The spectrometer sub-object opener. -/
def spectroLine : Line := ls "\"spectrometer\": \x7b"

/-- The maximum fixed intensity member line. -/
def maxFixedLine : Line := ls "\"maxFixedIntensity\": \"16383\","

/-- The integration time member line. -/
def integrationLine : Line := ls "\"integration time in ?s\": \"5000\","

/-- The nested opener that ends the wavelength run (no comma, no keys). -/
def readingsLine : Line := ls "\"readings\": \x7b"

/-- One wavelength sample line; the slice drops the trailing `", "`. -/
def wlValueLine (n : Line) : Line := ls "\"wavelength\": " ++ n ++ ls ", "

/-- One spectrum sample line; the slice drops the trailing `", "`. -/
def spValueLine (n : Line) : Line := ls "\"spectrum\": " ++ n ++ ls ", "

/-- The numeric value the loop accumulates for a wavelength line. -/
def wlNumVal (n : Line) : ℚ :=
  (pyFloat (extractNum (wlValueLine n))).getD 0

/-- The numeric value the loop accumulates for a spectrum line. -/
def spNumVal (n : Line) : ℚ :=
  (pyFloat (extractNum (spValueLine n))).getD 0

/-- One reading record of the raw dialect. -/
structure GenRecord where
  tsStr : Line
  scalarLines : List Line
  wls : List Line
  sps : List Line

/-- The record's lines from the marker down to the three inner closers. -/
def renderRecord (r : GenRecord) : List Line :=
  [markerLine, tsLine r.tsStr] ++ r.scalarLines ++
    [spectroLine, maxFixedLine, integrationLine] ++
    r.wls.map wlValueLine ++ [readingsLine] ++ r.sps.map spValueLine ++
    [closeBraceLine, closeBraceLine, closeBraceLine]

/-- A record block: the record plus its outer closing-brace line (the line
the repair replaces with `"},{"` when another record follows). -/
def recBlock (r : GenRecord) : List Line := renderRecord r ++ [closeBraceLine]

/-- A raw log: `{` then the blocks of all records. -/
def renderLog (rs : List GenRecord) : List Line :=
  openBraceLine :: (rs.map recBlock).flatten

/-- Conditions on a scalar field line of the dialect: no keys, no newline,
and well-nested braces that keep the record object open. -/
def goodScalarLine (l : Line) : Prop :=
  containsSub markerKey l = false ∧ containsSub wlKey l = false ∧
  containsSub spKey l = false ∧ cleanLine l = true ∧
  safeFromB l 2 = true ∧ endDepth l 2 = 2

/-- Conditions on a wavelength numeral. -/
def goodWlNumeral (n : Line) : Prop :=
  (pyFloat (extractNum (wlValueLine n))).isSome = true ∧
  containsSub wlKey (wlValueLine n) = true ∧
  containsSub spKey (wlValueLine n) = false ∧
  containsSub markerKey (wlValueLine n) = false ∧
  cleanLine (wlValueLine n) = true ∧ braceFree (wlValueLine n) = true

/-- Conditions on a spectrum numeral. -/
def goodSpNumeral (n : Line) : Prop :=
  (pyFloat (extractNum (spValueLine n))).isSome = true ∧
  containsSub spKey (spValueLine n) = true ∧
  containsSub wlKey (spValueLine n) = false ∧
  containsSub markerKey (spValueLine n) = false ∧
  containsSub [','] (spValueLine n) = true ∧
  cleanLine (spValueLine n) = true ∧ braceFree (spValueLine n) = true

/-- Conditions on a timestamp string. -/
def goodTs (t : Line) : Prop :=
  containsSub markerKey (tsLine t) = false ∧
  containsSub wlKey (tsLine t) = false ∧
  containsSub spKey (tsLine t) = false ∧
  containsSub [','] (tsLine t) = true ∧
  cleanLine (tsLine t) = true ∧ braceFree (tsLine t) = true

/-- A well-formed reading record of the dialect: at least four samples in
each run (so the end-of-run detection window of the source works), and all
component lines clean. -/
def WFRec (r : GenRecord) : Prop :=
  4 ≤ r.wls.length ∧ 4 ≤ r.sps.length ∧ goodTs r.tsStr ∧
  (∀ l ∈ r.scalarLines, goodScalarLine l) ∧
  (∀ n ∈ r.wls, goodWlNumeral n) ∧
  (∀ n ∈ r.sps, goodSpNumeral n)

instance (r : GenRecord) : Decidable (WFRec r) := by
  unfold WFRec goodTs goodScalarLine goodWlNumeral goodSpNumeral
  exact inferInstance

lemma isSome_eq_some_getD {o : Option ℚ} (h : o.isSome = true) :
    o = some (o.getD 0) := by
  cases o with
  | none => exact absurd h (by simp)
  | some v => rfl

lemma getD_map_line {f : Line → Line} :
    ∀ {l : List Line} {m : Nat}, m < l.length →
      (l.map f).getD m [] = f (l.getD m []) := by
  intro l
  induction l with
  | nil => intro m h; simp at h
  | cons x xs ih =>
    intro m h
    cases m with
    | zero => rfl
    | succ m => exact ih (by simpa using h)

lemma getD_map_rat {f : Line → ℚ} :
    ∀ {l : List Line} {m : Nat}, m < l.length →
      (l.map f).getD m 0 = f (l.getD m []) := by
  intro l
  induction l with
  | nil => intro m h; simp at h
  | cons x xs ih =>
    intro m h
    cases m with
    | zero => rfl
    | succ m => exact ih (by simpa using h)

lemma mem_getD_of_lt {l : List Line} {m : Nat} (h : m < l.length) :
    l.getD m [] ∈ l := by
  induction l generalizing m with
  | nil => simp at h
  | cons x xs ih =>
    cases m with
    | zero => exact List.Mem.head _
    | succ m => exact List.Mem.tail _ (ih (by simpa using h))

lemma getD_append_lt :
    ∀ {P B : List Line} {n : Nat}, n < P.length →
      (P ++ B).getD n [] = P.getD n [] := by
  intro P
  induction P with
  | nil => intro B n h; simp at h
  | cons x xs ih =>
    intro B n h
    cases n with
    | zero => rfl
    | succ n => exact ih (by simpa using h)

lemma getD_append_ge :
    ∀ {P B : List Line} {n : Nat}, P.length ≤ n →
      (P ++ B).getD n [] = B.getD (n - P.length) [] := by
  intro P
  induction P with
  | nil => intro B n _; simp
  | cons x xs ih =>
    intro B n h
    cases n with
    | zero => simp at h
    | succ n =>
      have := ih (B := B) (n := n) (by simpa using h)
      simpa using this

/-- Index into the suffix starting at `P.length`. -/
lemma getD_after {L P B : List Line} {off : Nat} (hdec : L = P ++ B) :
    L.getD (P.length + off) [] = B.getD off [] := by
  subst hdec
  rw [getD_append_ge (by omega)]
  congr 1
  omega

lemma runOne {L : List Line} {s t : FmtState} {a : Nat}
    (h : fmtStep L s a = .ok t) : runFrom L s a 1 = .ok t := by
  rw [runFrom_succ, h]
  rfl

/-- The marker line appends `i - 1` exactly when `2 < i`. -/
lemma fmtStep_markerLine {L : List Line} {s : FmtState} {i : Nat}
    {back : Line}
    (hline : L.getD i [] = markerLine)
    (hback : pyIndex L ((i : Int) - 4) = .ok back)
    (hbwl : containsSub wlKey back = false) :
    fmtStep L s i =
      .ok { s with linePosition :=
              s.linePosition ++ (if 2 < i then [i - 1] else []) } := by
  by_cases hi : 2 < i
  · rw [if_pos hi]
    refine fmtStep_marker hline ?_ (by decide) (by decide) hback hbwl
    rw [show containsSub markerKey markerLine = true from by decide]
    simp [hi]
  · rw [if_neg hi, List.append_nil]
    have hq := fmtStep_quiet (s := s) hline (by decide) (by decide) ?_ hback hbwl
    · exact hq
    · rw [show containsSub markerKey markerLine = true from by decide]
      simp [hi]

lemma getD_cons_succ1 (x : Line) (l : List Line) (n : Nat) :
    (x :: l).getD (n + 1) [] = l.getD n [] := rfl

lemma getD_cons_two (x y : Line) (l : List Line) (n : Nat) :
    (x :: y :: l).getD (n + 2) [] = l.getD n [] := rfl

lemma getD_cons_three (x y z : Line) (l : List Line) (n : Nat) :
    (x :: y :: z :: l).getD (n + 3) [] = l.getD n [] := rfl

/-- The record block in cons-normal form. -/
lemma recBlock_eq (r : GenRecord) :
    recBlock r = markerLine :: tsLine r.tsStr ::
      (r.scalarLines ++ spectroLine :: maxFixedLine :: integrationLine ::
        (r.wls.map wlValueLine ++ readingsLine ::
          (r.sps.map spValueLine ++
            [closeBraceLine, closeBraceLine, closeBraceLine,
             closeBraceLine]))) := by
  simp [recBlock, renderRecord]

lemma recBlock_length (r : GenRecord) :
    (recBlock r).length =
      r.scalarLines.length + r.wls.length + r.sps.length + 10 := by
  rw [recBlock_eq]
  simp only [List.length_cons, List.length_append, List.length_map,
    List.length_nil]
  omega

lemma recBlock_getD_marker (r : GenRecord) :
    (recBlock r).getD 0 [] = markerLine := by
  rw [recBlock_eq]; rfl

lemma recBlock_getD_ts (r : GenRecord) :
    (recBlock r).getD 1 [] = tsLine r.tsStr := by
  rw [recBlock_eq]; rfl

lemma recBlock_getD_scalar (r : GenRecord) {m : Nat}
    (h : m < r.scalarLines.length) :
    (recBlock r).getD (m + 2) [] = r.scalarLines.getD m [] := by
  rw [recBlock_eq, getD_cons_two, getD_append_lt h]

lemma recBlock_getD_spectro (r : GenRecord) :
    (recBlock r).getD (r.scalarLines.length + 2) [] = spectroLine := by
  rw [recBlock_eq, getD_cons_two, getD_append_ge (Nat.le_refl _),
    Nat.sub_self]
  rfl

lemma recBlock_getD_maxFixed (r : GenRecord) :
    (recBlock r).getD (r.scalarLines.length + 3) [] = maxFixedLine := by
  rw [recBlock_eq,
    show r.scalarLines.length + 3 = r.scalarLines.length + 1 + 2 from rfl,
    getD_cons_two, getD_append_ge (by omega),
    show r.scalarLines.length + 1 - r.scalarLines.length = 1 by omega]
  rfl

lemma recBlock_getD_integration (r : GenRecord) :
    (recBlock r).getD (r.scalarLines.length + 4) [] = integrationLine := by
  rw [recBlock_eq,
    show r.scalarLines.length + 4 = r.scalarLines.length + 2 + 2 from rfl,
    getD_cons_two, getD_append_ge (by omega),
    show r.scalarLines.length + 2 - r.scalarLines.length = 2 by omega]
  rfl

lemma recBlock_getD_wl (r : GenRecord) {m : Nat} (h : m < r.wls.length) :
    (recBlock r).getD (r.scalarLines.length + 5 + m) [] =
      wlValueLine (r.wls.getD m []) := by
  rw [recBlock_eq,
    show r.scalarLines.length + 5 + m =
      r.scalarLines.length + (m + 3) + 2 by omega,
    getD_cons_two, getD_append_ge (by omega),
    show r.scalarLines.length + (m + 3) - r.scalarLines.length = m + 3
      by omega,
    getD_cons_three,
    getD_append_lt (by simp only [List.length_map]; omega),
    getD_map_line h]

lemma recBlock_getD_readings (r : GenRecord) :
    (recBlock r).getD (r.scalarLines.length + 5 + r.wls.length) [] =
      readingsLine := by
  rw [recBlock_eq,
    show r.scalarLines.length + 5 + r.wls.length =
      r.scalarLines.length + (r.wls.length + 3) + 2 by omega,
    getD_cons_two, getD_append_ge (by omega),
    show r.scalarLines.length + (r.wls.length + 3) -
      r.scalarLines.length = r.wls.length + 3 by omega,
    getD_cons_three,
    getD_append_ge (by simp only [List.length_map]; omega),
    show r.wls.length - (r.wls.map wlValueLine).length = 0
      by simp only [List.length_map]; omega]
  rfl

lemma recBlock_getD_sp (r : GenRecord) {m : Nat} (h : m < r.sps.length) :
    (recBlock r).getD (r.scalarLines.length + 6 + r.wls.length + m) [] =
      spValueLine (r.sps.getD m []) := by
  rw [recBlock_eq,
    show r.scalarLines.length + 6 + r.wls.length + m =
      r.scalarLines.length + (r.wls.length + m + 1 + 3) + 2 by omega,
    getD_cons_two, getD_append_ge (by omega),
    show r.scalarLines.length + (r.wls.length + m + 1 + 3) -
      r.scalarLines.length = r.wls.length + m + 1 + 3 by omega,
    getD_cons_three,
    getD_append_ge (by simp only [List.length_map]; omega),
    show r.wls.length + m + 1 - (r.wls.map wlValueLine).length = m + 1
      by simp only [List.length_map]; omega,
    getD_cons_succ1,
    getD_append_lt (by simp only [List.length_map]; omega),
    getD_map_line h]

lemma recBlock_getD_close (r : GenRecord) {c : Nat} (h : c < 4) :
    (recBlock r).getD
      (r.scalarLines.length + 6 + r.wls.length + r.sps.length + c) [] =
      closeBraceLine := by
  rw [recBlock_eq,
    show r.scalarLines.length + 6 + r.wls.length + r.sps.length + c =
      r.scalarLines.length +
        (r.wls.length + (r.sps.length + c) + 1 + 3) + 2 by omega,
    getD_cons_two, getD_append_ge (by omega),
    show r.scalarLines.length +
      (r.wls.length + (r.sps.length + c) + 1 + 3) -
      r.scalarLines.length = r.wls.length + (r.sps.length + c) + 1 + 3
      by omega,
    getD_cons_three,
    getD_append_ge (by simp only [List.length_map]; omega),
    show r.wls.length + (r.sps.length + c) + 1 -
      (r.wls.map wlValueLine).length = r.sps.length + c + 1
      by simp only [List.length_map]; omega,
    getD_cons_succ1,
    getD_append_ge (by simp only [List.length_map]; omega),
    show r.sps.length + c - (r.sps.map spValueLine).length = c
      by simp only [List.length_map]; omega]
  interval_cases c <;> rfl

/-- Every block line before the spectrometer opener is free of the
wavelength key. -/
lemma recBlock_pre_wlfree (r : GenRecord) (hts : goodTs r.tsStr)
    (hsc : ∀ l ∈ r.scalarLines, goodScalarLine l) {q : Nat}
    (h : q < r.scalarLines.length + 2) :
    containsSub wlKey ((recBlock r).getD q []) = false := by
  rcases q with _ | _ | m
  · rw [recBlock_getD_marker]; decide
  · rw [recBlock_getD_ts]; exact hts.2.1
  · show containsSub wlKey ((recBlock r).getD (m + 2) []) = false
    rw [recBlock_getD_scalar r (m := m) (by omega)]
    exact (hsc _ (mem_getD_of_lt (by omega))).2.1

lemma runChain {L : List Line} {s t u : FmtState} {a n m : Nat}
    (h1 : runFrom L s a n = .ok t)
    (h2 : runFrom L t (a + n) m = .ok u) :
    runFrom L s a (n + m) = .ok u := by
  rw [runFrom_add_ok m h1]; exact h2

/-- One record block: starting at its marker line with aligned accumulators,
the loop marks the preceding line (exactly when the marker index exceeds 2),
fills the open wavelength slot with the record's wavelength values, opens a
fresh slot in both series at the readings line, and fills the new spectrum
slot with the record's spectrum values. -/
lemma runRecBlock {L P T : List Line} {r : GenRecord} {pos : List Nat}
    {ws ss : List (List ℚ)}
    (hwf : WFRec r)
    (hdec : L = P ++ (recBlock r ++ T))
    (hprev : ∀ m, m < 4 → P.length + m < L.length → ∃ back,
       pyIndex L (((P.length + m : Nat) : Int) - 4) = .ok back ∧
       containsSub wlKey back = false) :
    runFrom L ⟨pos, ws ++ [[]], [[]] ++ ss, ws.length, ss.length⟩
        P.length (recBlock r).length =
      .ok ⟨pos ++ (if 2 < P.length then [P.length - 1] else []),
           (ws ++ [r.wls.map wlNumVal]) ++ [[]],
           ([[]] ++ ss) ++ [r.sps.map spNumVal],
           ws.length + 1, ss.length + 1⟩ := by
  obtain ⟨hW4, hM4, hts, hscg, hWg, hSg⟩ := hwf
  have hblen := recBlock_length r
  have hLlen : L.length = P.length + ((recBlock r).length + T.length) := by
    rw [hdec]; simp [List.length_append]
  have hat : ∀ off, off < (recBlock r).length →
      L.getD (P.length + off) [] = (recBlock r).getD off [] := by
    intro off ho
    rw [getD_after hdec, getD_append_lt ho]
  have h4L : 4 ≤ L.length := by omega
  set q := pos ++ (if 2 < P.length then [P.length - 1] else [])
  -- the marker line
  have hline0 : L.getD P.length [] = markerLine := by
    have h := hat 0 (by omega)
    rw [Nat.add_zero] at h
    rw [h, recBlock_getD_marker]
  obtain ⟨b0, hb0, hb0wl⟩ := hprev 0 (by omega) (by omega)
  rw [Nat.add_zero] at hb0
  have h1 : runFrom L
      ⟨pos, ws ++ [[]], [[]] ++ ss, ws.length, ss.length⟩ P.length 1 =
      .ok ⟨q, ws ++ [[]], [[]] ++ ss, ws.length, ss.length⟩ :=
    runOne (fmtStep_markerLine hline0 hb0 hb0wl)
  -- the timestamp line
  have hline1 : L.getD (P.length + 1) [] = tsLine r.tsStr := by
    rw [hat 1 (by omega), recBlock_getD_ts]
  have h2 : runFrom L ⟨q, ws ++ [[]], [[]] ++ ss, ws.length, ss.length⟩
      (P.length + 1) 1 =
      .ok ⟨q, ws ++ [[]], [[]] ++ ss, ws.length, ss.length⟩ :=
    runOne (fmtStep_comma_quiet hline1 h4L (by omega) hts.2.1 hts.2.2.1
      (by rw [hts.1]; exact Bool.false_and _) hts.2.2.2.1)
  -- the scalar field lines
  have h3 : runFrom L ⟨q, ws ++ [[]], [[]] ++ ss, ws.length, ss.length⟩
      (P.length + 1 + 1) r.scalarLines.length =
      .ok ⟨q, ws ++ [[]], [[]] ++ ss, ws.length, ss.length⟩ := by
    refine runQuiet ?_
    intro st m hm
    rw [show P.length + 1 + 1 + m = P.length + (m + 2) by omega]
    have hl : L.getD (P.length + (m + 2)) [] = r.scalarLines.getD m [] := by
      rw [hat (m + 2) (by omega), recBlock_getD_scalar r (m := m) hm]
    have hgood := hscg _ (mem_getD_of_lt hm)
    rcases Nat.lt_or_ge m 2 with hm2 | hm2
    · obtain ⟨b, hb, hbwl⟩ := hprev (m + 2) (by omega) (by omega)
      exact fmtStep_quiet hl hgood.2.1 hgood.2.2.1 (by rw [hgood.1]; exact Bool.false_and _) hb hbwl
    · have hback := pyIndex_ge4 (L := L) (i := P.length + (m + 2))
        (by omega) (by omega)
      rw [show P.length + (m + 2) - 4 = P.length + (m - 2) by omega,
        hat (m - 2) (by omega)] at hback
      exact fmtStep_quiet hl hgood.2.1 hgood.2.2.1 (by rw [hgood.1]; exact Bool.false_and _) hback
        (recBlock_pre_wlfree r hts hscg (by omega))
  -- the spectrometer opener
  have hline4 : L.getD (P.length + (r.scalarLines.length + 2)) [] =
      spectroLine := by
    rw [hat (r.scalarLines.length + 2) (by omega), recBlock_getD_spectro]
  have hback4 : ∃ b,
      pyIndex L (((P.length + (r.scalarLines.length + 2) : Nat) : Int) - 4) =
        .ok b ∧ containsSub wlKey b = false := by
    rcases Nat.lt_or_ge r.scalarLines.length 2 with h2s | h2s
    · exact hprev (r.scalarLines.length + 2) (by omega) (by omega)
    · have hback := pyIndex_ge4 (L := L)
        (i := P.length + (r.scalarLines.length + 2)) (by omega) (by omega)
      rw [show P.length + (r.scalarLines.length + 2) - 4 =
          P.length + (r.scalarLines.length - 2) by omega,
        hat (r.scalarLines.length - 2) (by omega)] at hback
      exact ⟨_, hback, recBlock_pre_wlfree r hts hscg (by omega)⟩
  obtain ⟨b4, hb4, hb4wl⟩ := hback4
  have h4 : runFrom L ⟨q, ws ++ [[]], [[]] ++ ss, ws.length, ss.length⟩
      (P.length + 1 + 1 + r.scalarLines.length) 1 =
      .ok ⟨q, ws ++ [[]], [[]] ++ ss, ws.length, ss.length⟩ := by
    refine runOne ?_
    rw [show P.length + 1 + 1 + r.scalarLines.length =
        P.length + (r.scalarLines.length + 2) by omega]
    exact fmtStep_quiet hline4 (by decide) (by decide)
      (by rw [show containsSub markerKey spectroLine = false from by decide]
          exact Bool.false_and _)
      hb4 hb4wl
  -- the maximum fixed intensity line
  have hline5 : L.getD (P.length + (r.scalarLines.length + 3)) [] =
      maxFixedLine := by
    rw [hat (r.scalarLines.length + 3) (by omega), recBlock_getD_maxFixed]
  have h5 : runFrom L ⟨q, ws ++ [[]], [[]] ++ ss, ws.length, ss.length⟩
      (P.length + 1 + 1 + r.scalarLines.length + 1) 1 =
      .ok ⟨q, ws ++ [[]], [[]] ++ ss, ws.length, ss.length⟩ := by
    refine runOne ?_
    rw [show P.length + 1 + 1 + r.scalarLines.length + 1 =
        P.length + (r.scalarLines.length + 3) by omega]
    exact fmtStep_comma_quiet hline5 h4L (by omega) (by decide) (by decide)
      (by rw [show containsSub markerKey maxFixedLine = false from by decide]
          exact Bool.false_and _)
      (by decide)
  -- the integration time line
  have hline6 : L.getD (P.length + (r.scalarLines.length + 4)) [] =
      integrationLine := by
    rw [hat (r.scalarLines.length + 4) (by omega), recBlock_getD_integration]
  have h6 : runFrom L ⟨q, ws ++ [[]], [[]] ++ ss, ws.length, ss.length⟩
      (P.length + 1 + 1 + r.scalarLines.length + 1 + 1) 1 =
      .ok ⟨q, ws ++ [[]], [[]] ++ ss, ws.length, ss.length⟩ := by
    refine runOne ?_
    rw [show P.length + 1 + 1 + r.scalarLines.length + 1 + 1 =
        P.length + (r.scalarLines.length + 4) by omega]
    exact fmtStep_comma_quiet hline6 h4L (by omega) (by decide) (by decide)
      (by rw [show containsSub markerKey integrationLine = false from by decide]
          exact Bool.false_and _)
      (by decide)
  -- the wavelength run
  have hstep7 : ∀ (st : FmtState) m, m < (r.wls.map wlNumVal).length →
      fmtStep L st
        (P.length + 1 + 1 + r.scalarLines.length + 1 + 1 + 1 + m) =
        .ok { st with
                wavelengthList := appendAt st.wavelengthList st.j
                  ((r.wls.map wlNumVal).getD m 0) } := by
    intro st m hm
    rw [List.length_map] at hm
    rw [show P.length + 1 + 1 + r.scalarLines.length + 1 + 1 + 1 + m =
        P.length + (r.scalarLines.length + 5 + m) by omega]
    have hl : L.getD (P.length + (r.scalarLines.length + 5 + m)) [] =
        wlValueLine (r.wls.getD m []) := by
      rw [hat (r.scalarLines.length + 5 + m) (by omega),
        recBlock_getD_wl r (m := m) hm]
    have hgood := hWg _ (mem_getD_of_lt hm)
    have hv : pyFloat (extractNum (wlValueLine (r.wls.getD m []))) =
        some ((r.wls.map wlNumVal).getD m 0) := by
      rw [getD_map_rat hm]
      exact isSome_eq_some_getD hgood.1
    exact fmtStep_wl hl hgood.2.1 hgood.2.2.1 (by rw [hgood.2.2.2.1]; exact Bool.false_and _) hv
  have h7a : runFrom L ⟨q, ws ++ [[]], [[]] ++ ss, ws.length, ss.length⟩
      (P.length + 1 + 1 + r.scalarLines.length + 1 + 1 + 1)
      (r.wls.map wlNumVal).length =
      .ok ⟨q, ws ++ [[] ++ r.wls.map wlNumVal], [[]] ++ ss,
           ws.length, ss.length⟩ :=
    runWlRun (r.wls.map wlNumVal) hstep7 rfl rfl
  rw [List.nil_append, List.length_map] at h7a
  -- the readings line fires the end-of-run detection
  have hline8 : L.getD
      (P.length + (r.scalarLines.length + 5 + r.wls.length)) [] =
      readingsLine := by
    rw [hat (r.scalarLines.length + 5 + r.wls.length) (by omega),
      recBlock_getD_readings]
  have hback8 := pyIndex_ge4 (L := L)
    (i := P.length + (r.scalarLines.length + 5 + r.wls.length))
    (by omega) (by omega)
  rw [show P.length + (r.scalarLines.length + 5 + r.wls.length) - 4 =
      P.length + (r.scalarLines.length + 5 + (r.wls.length - 4)) by omega,
    hat (r.scalarLines.length + 5 + (r.wls.length - 4)) (by omega),
    recBlock_getD_wl r (m := r.wls.length - 4) (by omega)] at hback8
  have h8 : runFrom L
      ⟨q, ws ++ [r.wls.map wlNumVal], [[]] ++ ss, ws.length, ss.length⟩
      (P.length + 1 + 1 + r.scalarLines.length + 1 + 1 + 1 + r.wls.length)
      1 =
      .ok ⟨q, (ws ++ [r.wls.map wlNumVal]) ++ [[]], ([[]] ++ ss) ++ [[]],
           ws.length + 1, ss.length + 1⟩ := by
    refine runOne ?_
    rw [show P.length + 1 + 1 + r.scalarLines.length + 1 + 1 + 1 +
        r.wls.length = P.length + (r.scalarLines.length + 5 + r.wls.length)
        by omega]
    exact fmtStep_fire hline8 (by decide) (by decide)
      (by rw [show containsSub markerKey readingsLine = false from by decide]
          exact Bool.false_and _)
      (by decide) (by decide) hback8
      ((hWg _ (mem_getD_of_lt (by omega))).2.1)
  -- the spectrum run
  have hstep9 : ∀ (st : FmtState) m, m < (r.sps.map spNumVal).length →
      fmtStep L st
        (P.length + 1 + 1 + r.scalarLines.length + 1 + 1 + 1 +
          r.wls.length + 1 + m) =
        .ok { st with
                spectrumList := appendAt st.spectrumList st.k
                  ((r.sps.map spNumVal).getD m 0) } := by
    intro st m hm
    rw [List.length_map] at hm
    rw [show P.length + 1 + 1 + r.scalarLines.length + 1 + 1 + 1 +
        r.wls.length + 1 + m =
        P.length + (r.scalarLines.length + 6 + r.wls.length + m) by omega]
    have hl : L.getD
        (P.length + (r.scalarLines.length + 6 + r.wls.length + m)) [] =
        spValueLine (r.sps.getD m []) := by
      rw [hat (r.scalarLines.length + 6 + r.wls.length + m) (by omega),
        recBlock_getD_sp r (m := m) hm]
    have hgood := hSg _ (mem_getD_of_lt hm)
    have hv : pyFloat (extractNum (spValueLine (r.sps.getD m []))) =
        some ((r.sps.map spNumVal).getD m 0) := by
      rw [getD_map_rat hm]
      exact isSome_eq_some_getD hgood.1
    exact fmtStep_sp hl h4L (by omega) hgood.2.2.1 hgood.2.1
      (by rw [hgood.2.2.2.1]; exact Bool.false_and _) hgood.2.2.2.2.1 hv
  have h9a : runFrom L
      ⟨q, (ws ++ [r.wls.map wlNumVal]) ++ [[]], ([[]] ++ ss) ++ [[]],
       ws.length + 1, ss.length + 1⟩
      (P.length + 1 + 1 + r.scalarLines.length + 1 + 1 + 1 +
        r.wls.length + 1)
      (r.sps.map spNumVal).length =
      .ok ⟨q, (ws ++ [r.wls.map wlNumVal]) ++ [[]],
           ([[]] ++ ss) ++ [[] ++ r.sps.map spNumVal],
           ws.length + 1, ss.length + 1⟩ :=
    runSpRun (r.sps.map spNumVal) hstep9 rfl rfl
  rw [List.nil_append, List.length_map] at h9a
  -- the four closing-brace lines
  have h10 : runFrom L
      ⟨q, (ws ++ [r.wls.map wlNumVal]) ++ [[]],
       ([[]] ++ ss) ++ [r.sps.map spNumVal],
       ws.length + 1, ss.length + 1⟩
      (P.length + 1 + 1 + r.scalarLines.length + 1 + 1 + 1 +
        r.wls.length + 1 + r.sps.length) 4 =
      .ok ⟨q, (ws ++ [r.wls.map wlNumVal]) ++ [[]],
           ([[]] ++ ss) ++ [r.sps.map spNumVal],
           ws.length + 1, ss.length + 1⟩ := by
    refine runQuiet ?_
    intro st c hc
    rw [show P.length + 1 + 1 + r.scalarLines.length + 1 + 1 + 1 +
        r.wls.length + 1 + r.sps.length + c =
        P.length +
          (r.scalarLines.length + 6 + r.wls.length + r.sps.length + c)
        by omega]
    have hl : L.getD (P.length +
        (r.scalarLines.length + 6 + r.wls.length + r.sps.length + c)) [] =
        closeBraceLine := by
      rw [hat (r.scalarLines.length + 6 + r.wls.length + r.sps.length + c)
          (by omega),
        recBlock_getD_close r (c := c) hc]
    have hback := pyIndex_ge4 (L := L)
      (i := P.length +
        (r.scalarLines.length + 6 + r.wls.length + r.sps.length + c))
      (by omega) (by omega)
    rw [show P.length +
        (r.scalarLines.length + 6 + r.wls.length + r.sps.length + c) - 4 =
        P.length + (r.scalarLines.length + 6 + r.wls.length +
          (r.sps.length - 4 + c)) by omega,
      hat (r.scalarLines.length + 6 + r.wls.length + (r.sps.length - 4 + c))
        (by omega),
      recBlock_getD_sp r (m := r.sps.length - 4 + c) (by omega)] at hback
    exact fmtStep_quiet hl (by decide) (by decide)
      (by rw [show containsSub markerKey closeBraceLine = false from by decide]
          exact Bool.false_and _)
      hback ((hSg _ (mem_getD_of_lt (by omega))).2.2.1)
  -- chain the ten segments
  rw [show (recBlock r).length =
      1 + (1 + (r.scalarLines.length + (1 + (1 + (1 + (r.wls.length +
        (1 + (r.sps.length + 4)))))))) by omega]
  exact runChain h1 (runChain h2 (runChain h3 (runChain h4 (runChain h5
    (runChain h6 (runChain h7a (runChain h8 (runChain h9a h10))))))))

/-- The boundary marks the loop accumulates over a run of record blocks whose
first block starts at line index `a`: one mark per block start above index 2,
pointing at the preceding line. -/
def blocksMarks : Nat → List GenRecord → List Nat
  | _, [] => []
  | a, r :: rest =>
    (if 2 < a then [a - 1] else []) ++
      blocksMarks (a + (recBlock r).length) rest

/-- Running the loop over a run of record blocks: each block appends its
wavelength values to the open slot and its spectrum values to a fresh slot,
and each block start above index 2 marks the preceding line. -/
lemma runBlocks {L T : List Line} :
    ∀ (rs : List GenRecord) (P : List Line) (pos : List Nat)
      (ws ss : List (List ℚ)),
      (∀ r ∈ rs, WFRec r) →
      L = P ++ ((rs.map recBlock).flatten ++ T) →
      (∀ m, m < 4 → P.length + m < L.length → ∃ back,
         pyIndex L (((P.length + m : Nat) : Int) - 4) = .ok back ∧
         containsSub wlKey back = false) →
      runFrom L ⟨pos, ws ++ [[]], [[]] ++ ss, ws.length, ss.length⟩
          P.length (rs.map recBlock).flatten.length =
        .ok ⟨pos ++ blocksMarks P.length rs,
             (ws ++ rs.map (fun r => r.wls.map wlNumVal)) ++ [[]],
             ([[]] ++ ss) ++ rs.map (fun r => r.sps.map spNumVal),
             ws.length + rs.length, ss.length + rs.length⟩ := by
  intro rs
  induction rs with
  | nil =>
    intro P pos ws ss _ _ _
    show runFrom L ⟨pos, ws ++ [[]], [[]] ++ ss, ws.length, ss.length⟩
        P.length 0 = _
    rw [runFrom_zero]
    simp [blocksMarks]
  | cons r rest ih =>
    intro P pos ws ss hwf hdec hprev
    have hblen := recBlock_length r
    have hdec1 : L = P ++ (recBlock r ++ ((rest.map recBlock).flatten ++ T))
      := by
      rw [hdec]; simp [List.append_assoc]
    have hLlen : L.length =
        P.length + ((recBlock r).length +
          ((rest.map recBlock).flatten.length + T.length)) := by
      rw [hdec1]; simp [List.length_append]
    have h1 : runFrom L ⟨pos, ws ++ [[]], [[]] ++ ss, ws.length, ss.length⟩
        P.length (recBlock r).length =
        .ok ⟨pos ++ (if 2 < P.length then [P.length - 1] else []),
             (ws ++ [r.wls.map wlNumVal]) ++ [[]],
             ([[]] ++ ss) ++ [r.sps.map spNumVal],
             ws.length + 1, ss.length + 1⟩ :=
      runRecBlock (hwf r (List.mem_cons_self r rest)) hdec1 hprev
    -- lookback facts at the start of the next block: the four closers
    have hprev1 : ∀ m, m < 4 →
        (P ++ recBlock r).length + m < L.length → ∃ back,
        pyIndex L ((((P ++ recBlock r).length + m : Nat) : Int) - 4) =
          .ok back ∧ containsSub wlKey back = false := by
      intro m hm hi
      have hPl : (P ++ recBlock r).length = P.length + (recBlock r).length
        := by simp
      rw [hPl] at hi ⊢
      have hback := pyIndex_ge4 (L := L)
        (i := P.length + (recBlock r).length + m) (by omega) hi
      rw [show P.length + (recBlock r).length + m - 4 =
          P.length + (r.scalarLines.length + 6 + r.wls.length +
            r.sps.length + m) by omega,
        getD_after hdec1,
        getD_append_lt (by omega),
        recBlock_getD_close r (c := m) hm] at hback
      exact ⟨closeBraceLine, hback, by decide⟩
    have hdec2 : L = (P ++ recBlock r) ++
        ((rest.map recBlock).flatten ++ T) := by
      rw [hdec1]; simp [List.append_assoc]
    have h2 := ih (P ++ recBlock r)
      (pos ++ (if 2 < P.length then [P.length - 1] else []))
      (ws ++ [r.wls.map wlNumVal]) (ss ++ [r.sps.map spNumVal])
      (fun x hx => hwf x (List.mem_cons_of_mem r hx)) hdec2 hprev1
    simp only [List.length_append, List.length_singleton] at h2
    -- align the goal with the two chained runs
    rw [show pos ++ blocksMarks P.length (r :: rest) =
        (pos ++ (if 2 < P.length then [P.length - 1] else [])) ++
          blocksMarks (P.length + (recBlock r).length) rest by
      simp [blocksMarks, List.append_assoc]]
    rw [show ws ++ (r :: rest).map (fun x => x.wls.map wlNumVal) =
        (ws ++ [r.wls.map wlNumVal]) ++
          rest.map (fun x => x.wls.map wlNumVal) by
      simp [List.append_assoc]]
    rw [show ([[]] ++ ss) ++ (r :: rest).map (fun x => x.sps.map spNumVal) =
        ([[]] ++ (ss ++ [r.sps.map spNumVal])) ++
          rest.map (fun x => x.sps.map spNumVal) by
      simp [List.append_assoc]]
    rw [show ws.length + (r :: rest).length =
        ws.length + 1 + rest.length by
      simp only [List.length_cons]; omega]
    rw [show ss.length + (r :: rest).length =
        ss.length + 1 + rest.length by
      simp only [List.length_cons]; omega]
    rw [show ((r :: rest).map recBlock).flatten.length =
        (recBlock r).length + (rest.map recBlock).flatten.length by simp]
    exact runChain h1 h2

/-- The record's lines before its four closing braces. -/
def recBody (r : GenRecord) : List Line :=
  [markerLine, tsLine r.tsStr] ++ r.scalarLines ++
    [spectroLine, maxFixedLine, integrationLine] ++
    r.wls.map wlValueLine ++ [readingsLine] ++ r.sps.map spValueLine

lemma recBlock_body (r : GenRecord) :
    recBlock r = recBody r ++
      [closeBraceLine, closeBraceLine, closeBraceLine, closeBraceLine] := by
  simp [recBlock, renderRecord, recBody, List.append_assoc]

/-- A nonempty log ends in the last record's four closing-brace lines. -/
lemma renderLog_concat (a : List GenRecord) (b : GenRecord) :
    renderLog (a ++ [b]) =
      (openBraceLine :: ((a.map recBlock).flatten ++ recBody b)) ++
        [closeBraceLine, closeBraceLine, closeBraceLine, closeBraceLine] := by
  simp [renderLog, recBlock_body, List.append_assoc]

lemma getD_closers {k : Nat} (h : k < 4) :
    ([closeBraceLine, closeBraceLine, closeBraceLine, closeBraceLine]
      : List Line).getD k [] = closeBraceLine := by
  interval_cases k <;> rfl

/-- The whole repair loop on a rendered nonempty log: one mark per record
after the first, the wavelength accumulator ends with its per-record values
followed by one trailing empty slot, and the spectrum accumulator ends with
one leading empty slot followed by its per-record values. -/
lemma fmtLoop_renderLog (rs : List GenRecord) (hne : rs ≠ [])
    (hwf : ∀ r ∈ rs, WFRec r) :
    fmtLoop (renderLog rs) =
      .ok ⟨blocksMarks 1 rs,
           rs.map (fun r => r.wls.map wlNumVal) ++ [[]],
           [[]] ++ rs.map (fun r => r.sps.map spNumVal),
           rs.length, rs.length⟩ := by
  rcases List.eq_nil_or_concat rs with h | ⟨a, b, hab⟩
  · exact absurd h hne
  rw [List.concat_eq_append] at hab
  subst hab
  have hsplit := renderLog_concat a b
  have hwfb : WFRec b := hwf b (by simp)
  have hlen14 : 14 ≤ (recBlock b).length := by
    have h4w := hwfb.1
    have h4m := hwfb.2.1
    rw [recBlock_length]
    omega
  have hflen : (((a ++ [b]).map recBlock).flatten).length =
      ((a.map recBlock).flatten).length + (recBlock b).length := by
    simp
  have hLlen : (renderLog (a ++ [b])).length =
      1 + (((a ++ [b]).map recBlock).flatten).length := by
    simp [renderLog]
    omega
  have hBlen : (renderLog (a ++ [b])).length =
      (openBraceLine :: ((a.map recBlock).flatten ++ recBody b)).length + 4
      := by
    rw [hsplit]
    simp
    omega
  have hL0 : (renderLog (a ++ [b])).getD 0 [] = openBraceLine := rfl
  -- index 0: the opening brace line is quiet
  have hb0 := pyIndex_wrap (L := renderLog (a ++ [b])) (i := 0)
    (by omega) (by omega)
  rw [show (renderLog (a ++ [b])).length - 4 + 0 =
      (openBraceLine :: ((a.map recBlock).flatten ++ recBody b)).length + 0
      by omega,
    getD_after hsplit, getD_closers (by omega)] at hb0
  have h0 : runFrom (renderLog (a ++ [b])) fmtInit 0 1 = .ok fmtInit := by
    refine runOne ?_
    exact fmtStep_quiet hL0 (by decide) (by decide)
      (by rw [show containsSub markerKey openBraceLine = false from by decide]
          exact Bool.false_and _)
      hb0 (by decide)
  -- the blocks
  have hdec : renderLog (a ++ [b]) = [openBraceLine] ++
      ((((a ++ [b]).map recBlock).flatten) ++ []) := by
    simp [renderLog]
  have hprev : ∀ m, m < 4 →
      ([openBraceLine] : List Line).length + m <
        (renderLog (a ++ [b])).length → ∃ back,
      pyIndex (renderLog (a ++ [b]))
          (((([openBraceLine] : List Line).length + m : Nat) : Int) - 4) =
        .ok back ∧ containsSub wlKey back = false := by
    intro m hm hi
    simp only [List.length_singleton] at hi ⊢
    rcases Nat.lt_or_ge (1 + m) 4 with h4m | h4m
    · have hb := pyIndex_wrap (L := renderLog (a ++ [b])) (i := 1 + m)
        h4m (by omega)
      rw [show (renderLog (a ++ [b])).length - 4 + (1 + m) =
          (openBraceLine ::
            ((a.map recBlock).flatten ++ recBody b)).length + (1 + m)
          by omega,
        getD_after hsplit, getD_closers (by omega)] at hb
      exact ⟨closeBraceLine, hb, by decide⟩
    · have hm3 : m = 3 := by omega
      subst hm3
      have hb := pyIndex_ge4 (L := renderLog (a ++ [b])) (i := 1 + 3)
        (by omega) (by omega)
      rw [show 1 + 3 - 4 = 0 by omega, hL0] at hb
      exact ⟨openBraceLine, hb, by decide⟩
  have h2 := runBlocks (T := []) (a ++ [b]) [openBraceLine] [] [] []
    hwf hdec hprev
  simp only [List.length_singleton, List.length_nil, Nat.zero_add,
    List.nil_append, List.append_nil] at h2
  show runFrom (renderLog (a ++ [b])) fmtInit 0
      (renderLog (a ++ [b])).length = _
  rw [hLlen]
  exact runChain h0 h2

/-! ## Split/join of the log text, boundary stitching, slot removal -/

lemma joinLines_cons (x : Line) {xs : List Line} (h : xs ≠ []) :
    joinLines (x :: xs) = x ++ '\n' :: joinLines xs := by
  cases xs with
  | nil => exact absurd rfl h
  | cons y ys => rfl

lemma pySplitNl_ne_nil : ∀ s : Line, pySplitNl s ≠ [] := by
  intro s
  induction s with
  | nil => simp [pySplitNl]
  | cons c cs ih =>
    show (match pySplitNl cs with
      | a :: rest => if c = '\n' then [] :: a :: rest else (c :: a) :: rest
      | [] => [[c]]) ≠ []
    rcases h : pySplitNl cs with _ | ⟨a, rest⟩
    · simp
    · dsimp only
      split <;> simp

lemma pySplitNl_clean : ∀ (l : Line), cleanLine l = true → pySplitNl l = [l]
  := by
  intro l
  induction l with
  | nil => intro _; rfl
  | cons c cs ih =>
    intro h
    simp only [cleanLine, List.all_cons, Bool.and_eq_true] at h
    have hc : ¬(c = '\n') := by
      intro hcc
      rw [hcc] at h
      simp at h
    show (match pySplitNl cs with
      | a :: rest => if c = '\n' then [] :: a :: rest else (c :: a) :: rest
      | [] => [[c]]) = [c :: cs]
    rw [ih (by simp [cleanLine, h.2])]
    dsimp only
    rw [if_neg hc]

lemma pySplitNl_glue :
    ∀ (l : Line), cleanLine l = true → ∀ (s : Line),
      pySplitNl (l ++ '\n' :: s) = l :: pySplitNl s := by
  intro l
  induction l with
  | nil =>
    intro _ s
    show (match pySplitNl s with
      | a :: rest => if '\n' = '\n' then [] :: a :: rest else _ :: rest
      | [] => [['\n']]) = [] :: pySplitNl s
    rcases h : pySplitNl s with _ | ⟨a, rest⟩
    · exact absurd h (pySplitNl_ne_nil s)
    · simp
  | cons c cs ih =>
    intro h s
    simp only [cleanLine, List.all_cons, Bool.and_eq_true] at h
    have hc : ¬(c = '\n') := by
      intro hcc
      rw [hcc] at h
      simp at h
    show (match pySplitNl (cs ++ '\n' :: s) with
      | a :: rest => if c = '\n' then [] :: a :: rest else (c :: a) :: rest
      | [] => [[c]]) = (c :: cs) :: pySplitNl s
    rw [ih (by simp [cleanLine, h.2]) s]
    dsimp only
    rw [if_neg hc]

/-- Splitting the joined lines returns the lines, provided each is free of
embedded newlines. -/
lemma pySplitNl_joinLines :
    ∀ (l : List Line), l ≠ [] → (∀ x ∈ l, cleanLine x = true) →
      pySplitNl (joinLines l) = l := by
  intro l
  induction l with
  | nil => intro h _; exact absurd rfl h
  | cons x xs ih =>
    intro _ hcl
    cases xs with
    | nil => exact pySplitNl_clean x (hcl x (by simp))
    | cons y ys =>
      rw [joinLines_cons x (by simp),
        pySplitNl_glue x (hcl x (by simp)),
        ih (by simp) (fun z hz => hcl z (List.mem_cons_of_mem x hz))]

lemma pyRemoveEmpty_append_empty :
    ∀ {l : List (List ℚ)}, (∀ x ∈ l, x ≠ []) →
      pyRemoveEmpty (l ++ [[]]) = .ok l := by
  intro l
  induction l with
  | nil => intro _; simp [pyRemoveEmpty]
  | cons x xs ih =>
    intro h
    show pyRemoveEmpty (x :: (xs ++ [[]])) = .ok (x :: xs)
    unfold pyRemoveEmpty
    rw [if_neg (h x (by simp))]
    rw [ih (fun y hy => h y (by simp [hy]))]
    rfl

lemma pyRemoveEmpty_cons_empty (l : List (List ℚ)) :
    pyRemoveEmpty ([] :: l) = .ok l := by
  simp [pyRemoveEmpty]

lemma recBlock_clean {r : GenRecord} (h : WFRec r) :
    ∀ l ∈ recBlock r, cleanLine l = true := by
  obtain ⟨hW4, hM4, hts, hsc, hwl, hsp⟩ := h
  intro l hl
  rw [recBlock_eq] at hl
  simp only [List.mem_cons, List.mem_append, List.mem_map,
    List.mem_singleton, List.not_mem_nil, or_false] at hl
  rcases hl with rfl | rfl | h | rfl | rfl | rfl | ⟨x, hx, rfl⟩ | rfl |
    ⟨x, hx, rfl⟩ | rfl | rfl | rfl | rfl
  · decide
  · exact hts.2.2.2.2.1
  · exact (hsc _ h).2.2.2.1
  · decide
  · decide
  · decide
  · exact (hwl x hx).2.2.2.2.1
  · decide
  · exact (hsp x hx).2.2.2.2.2.1
  · decide
  · decide
  · decide
  · decide

lemma renderLog_clean (rs : List GenRecord) (hwf : ∀ r ∈ rs, WFRec r) :
    ∀ l ∈ renderLog rs, cleanLine l = true := by
  intro l hl
  simp only [renderLog, List.mem_cons, List.mem_flatten, List.mem_map] at hl
  rcases hl with rfl | ⟨b, ⟨r, hr, rfl⟩, hb⟩
  · decide
  · exact recBlock_clean (hwf r hr) l hb

/-- The stitched block lines after the repair: each record's body followed by
`"},{"` except the last, which keeps its own closing brace. -/
def stitchedTail : List GenRecord → List Line
  | [] => []
  | [r] => recBlock r
  | r :: r2 :: rest => renderRecord r ++ stitchLine :: stitchedTail (r2 :: rest)

lemma set_append_right :
    ∀ (A B : List Line) (k : Nat) (x : Line),
      (A ++ B).set (A.length + k) x = A ++ B.set k x := by
  intro A
  induction A with
  | nil => intro B k x; simp
  | cons a as ih =>
    intro B k x
    simp only [List.cons_append, List.length_cons]
    rw [show as.length + 1 + k = (as.length + k) + 1 by omega,
      List.set_cons_succ, ih]

lemma applyB_go :
    ∀ (rs : List GenRecord) (r : GenRecord) (Q : List Line),
      applyBoundaries (Q ++ (recBlock r ++ (rs.map recBlock).flatten))
          (blocksMarks (Q.length + (recBlock r).length) rs) =
        Q ++ stitchedTail (r :: rs) := by
  intro rs
  induction rs with
  | nil =>
    intro r Q
    show applyBoundaries (Q ++ (recBlock r ++ [])) [] = Q ++ recBlock r
    simp [applyBoundaries]
  | cons r2 rest ih =>
    intro r Q
    have hlen := recBlock_length r
    have ha : 2 < Q.length + (recBlock r).length := by omega
    have hmarks : blocksMarks (Q.length + (recBlock r).length) (r2 :: rest) =
        (Q.length + (recBlock r).length - 1) ::
          blocksMarks
            (Q.length + (recBlock r).length + (recBlock r2).length) rest := by
      simp [blocksMarks, ha]
    rw [hmarks, applyBoundaries_cons]
    have hset : (Q ++ (recBlock r ++ ((r2 :: rest).map recBlock).flatten)).set
        (Q.length + (recBlock r).length - 1) stitchLine =
        ((Q ++ renderRecord r) ++ [stitchLine]) ++
          (recBlock r2 ++ (rest.map recBlock).flatten) := by
      have h1 : Q ++ (recBlock r ++ ((r2 :: rest).map recBlock).flatten) =
          (Q ++ renderRecord r) ++
            ([closeBraceLine] ++
              (recBlock r2 ++ (rest.map recBlock).flatten)) := by
        simp [recBlock, List.append_assoc]
      rw [h1,
        show Q.length + (recBlock r).length - 1 =
          (Q ++ renderRecord r).length + 0 by
          simp only [recBlock, List.length_append, List.length_singleton]
          omega,
        set_append_right]
      simp
    rw [hset,
      show Q.length + (recBlock r).length + (recBlock r2).length =
        ((Q ++ renderRecord r) ++ [stitchLine]).length + (recBlock r2).length
        by
        simp only [recBlock, List.length_append, List.length_singleton]
        omega,
      ih r2 ((Q ++ renderRecord r) ++ [stitchLine])]
    show _ = Q ++ stitchedTail (r :: r2 :: rest)
    simp [stitchedTail, List.append_assoc]

lemma applyBoundaries_renderLog (rs : List GenRecord) (hne : rs ≠ []) :
    applyBoundaries (renderLog rs) (blocksMarks 1 rs) =
      openBraceLine :: stitchedTail rs := by
  cases rs with
  | nil => exact absurd rfl hne
  | cons r rest =>
    have h := applyB_go rest r [openBraceLine]
    rw [show blocksMarks 1 (r :: rest) =
        blocksMarks (([openBraceLine] : List Line).length +
          (recBlock r).length) rest by
      simp [blocksMarks]] -- the first block starts at index 1, never marked
    exact h

lemma stitchedTail_last :
    ∀ (rs : List GenRecord), rs ≠ [] →
      ∃ Q, stitchedTail rs = Q ++ [closeBraceLine] := by
  intro rs
  induction rs with
  | nil => intro h; exact absurd rfl h
  | cons r rest ih =>
    intro _
    cases rest with
    | nil => exact ⟨renderRecord r, rfl⟩
    | cons r2 rest2 =>
      obtain ⟨Q, hQ⟩ := ih (by simp)
      refine ⟨renderRecord r ++ stitchLine :: Q, ?_⟩
      show renderRecord r ++ stitchLine :: stitchedTail (r2 :: rest2) = _
      rw [hQ]
      simp

lemma pyIndex_zero {L : List Line} (h : L ≠ []) :
    pyIndex L 0 = .ok (L.getD 0 []) := by
  have hl : 0 < L.length := List.length_pos.mpr h
  unfold pyIndex
  dsimp only
  rw [if_neg (show ¬((0 : Int) < 0) by omega)]
  rw [if_pos (show (0 : Int) ≤ 0 ∧ (0 : Int) < (L.length : Int) by
    constructor
    · omega
    · exact_mod_cast hl)]
  rfl

lemma pyIndex_neg_one {L : List Line} (h : L ≠ []) :
    pyIndex L (-1) = .ok (L.getD (L.length - 1) []) := by
  have hl : 0 < L.length := List.length_pos.mpr h
  unfold pyIndex
  dsimp only
  rw [if_pos (show (-1 : Int) < 0 by omega)]
  rw [if_pos (show (0 : Int) ≤ -1 + (L.length : Int) ∧
      -1 + (L.length : Int) < (L.length : Int) by omega)]
  rw [show ((-1 : Int) + (L.length : Int)).toNat = L.length - 1 by omega]

/-- The Repairer/Parser on the text of a rendered nonempty well-formed log:
it returns the bracketed stitched lines together with one wavelength entry
and one spectrum entry per record. -/
lemma formatting_renderLog (rs : List GenRecord) (hne : rs ≠ [])
    (hwf : ∀ r ∈ rs, WFRec r) :
    formatting (joinLines (renderLog rs)) =
      .ok (ls "[" :: (openBraceLine :: stitchedTail rs) ++ [ls "]"],
           rs.map (fun r => r.wls.map wlNumVal),
           rs.map (fun r => r.sps.map spNumVal)) := by
  have hsplit := pySplitNl_joinLines (renderLog rs) (by simp [renderLog])
    (renderLog_clean rs hwf)
  have hloop := fmtLoop_renderLog rs hne hwf
  have hw : pyRemoveEmpty (rs.map (fun r => r.wls.map wlNumVal) ++ [[]]) =
      .ok (rs.map (fun r => r.wls.map wlNumVal)) := by
    refine pyRemoveEmpty_append_empty ?_
    intro x hx
    obtain ⟨r, hr, rfl⟩ := List.mem_map.mp hx
    intro hc
    have hlen : r.wls.length = 0 := by
      have h2 := congrArg List.length hc
      simpa using h2
    have h4 := (hwf r hr).1
    omega
  have hs : pyRemoveEmpty ([[]] ++ rs.map (fun r => r.sps.map spNumVal)) =
      .ok (rs.map (fun r => r.sps.map spNumVal)) :=
    pyRemoveEmpty_cons_empty _
  have happ := applyBoundaries_renderLog rs hne
  obtain ⟨Q, hQ⟩ := stitchedTail_last rs hne
  have hp0 : pyIndex (openBraceLine :: stitchedTail rs) 0 =
      .ok openBraceLine := by
    rw [pyIndex_zero (by simp)]
    rfl
  have hpl : pyIndex (openBraceLine :: stitchedTail rs) (-1) =
      .ok closeBraceLine := by
    rw [pyIndex_neg_one (by simp)]
    rw [show openBraceLine :: stitchedTail rs =
        (openBraceLine :: Q) ++ [closeBraceLine] by simp [hQ]]
    rw [show ((openBraceLine :: Q) ++ [closeBraceLine] : List Line).length -
        1 = (openBraceLine :: Q).length + 0 by simp]
    rw [getD_after rfl]
    rfl
  unfold formatting
  rw [hsplit]
  dsimp only
  rw [hloop]
  dsimp only
  rw [hw]
  dsimp only
  rw [hs]
  dsimp only
  rw [happ, hp0]
  dsimp only
  rw [hpl]
  dsimp only
  rw [if_pos (by decide :
    (!containsSub ['['] openBraceLine &&
      !containsSub [']'] closeBraceLine) = true)]

/-! ## Basic facts and claim theorems for the Container Builder -/


/-- The partial container left behind when `main` is called with zero
records: time dimension and empty time variable only. -/
def timeOnlyFile : NCFile :=
  { dims := [("time", none)],
    vars := [{ name := "time", dims := ["time"], data := .textList [] }],
    history := none }

/-- C3 counterexample: on a zero-record sequence the Container Builder does
not succeed (it raises `IndexError` at `dataMemberList[0]`), contrary to the
claim that it yields a valid container with an empty time dimension. -/
theorem buildZeroRecordsFails :
    isOkB (ncMain [] [] [] (some "Thu Jan 01 00:00:00 1970") (some "a b")) =
      false := rfl

/-- C3 (amended): a zero-record sequence makes the build fail with an
`IndexError` when the first record is accessed as the schema template; at
that point only the time dimension and the empty time variable have been
created, and no complete container is produced. -/
theorem buildZeroRecordsIndexError (wavelength spectrum : List (List ℚ))
    (recordTime commandLine : Option String) :
    ncMain [] wavelength spectrum recordTime commandLine =
      .error (.indexError, timeOnlyFile) := rfl

/-- C10: every successful build provides both `recordTime` and `commandLine`
(the `history` attribute concatenates them), and leaving either at its `None`
default turns an otherwise complete build into a `TypeError` whose partial
container already holds all the variables. -/
theorem provenanceRequiresBothParams
    (arr : List JVal) (wavelength spectrum : List (List ℚ))
    (recordTime commandLine : Option String) (f g : NCFile) :
    (ncMain arr wavelength spectrum recordTime commandLine = .ok f →
      ∃ r c, recordTime = some r ∧ commandLine = some c ∧
        f.history = some (r ++ ": python " ++ c)) ∧
    (ncCore arr wavelength spectrum = .ok g →
      ncMain arr wavelength spectrum none commandLine =
        .error (.typeError, g) ∧
      ncMain arr wavelength spectrum recordTime none =
        .error (.typeError, g)) := by
  constructor
  · intro h
    unfold ncMain at h
    cases hc : ncCore arr wavelength spectrum with
    | error e => rw [hc] at h; exact Except.noConfusion h
    | ok f0 =>
      rw [hc] at h
      cases recordTime with
      | none => exact Except.noConfusion h
      | some r =>
        cases commandLine with
        | none => exact Except.noConfusion h
        | some c =>
          refine ⟨r, c, rfl, rfl, ?_⟩
          cases h
          rfl
  · intro h
    refine ⟨?_, ?_⟩
    · unfold ncMain; rw [h]
    · unfold ncMain; rw [h]; cases recordTime <;> rfl

lemma exMapM_ok_length {f : α → Except PyErr β} {l : List α} {r : List β}
    (h : exMapM f l = .ok r) : r.length = l.length := by
  induction l generalizing r with
  | nil => cases h; rfl
  | cons x xs ih =>
    unfold exMapM at h
    cases hx : f x with
    | error e => rw [hx] at h; exact Except.noConfusion h
    | ok y =>
      rw [hx] at h
      cases hxs : exMapM f xs with
      | error e => rw [hxs] at h; exact Except.noConfusion h
      | ok ys =>
        rw [hxs] at h
        cases h
        simp [ih hxs]

lemma emitFields_vars_mono {dml : List JVal} {f g : NCFile}
    {ps : List (String × JVal)} (h : emitFields dml f ps = .ok g) :
    ∃ t, g.vars = f.vars ++ t := by
  induction ps generalizing f with
  | nil => cases h; exact ⟨[], (List.append_nil _).symm⟩
  | cons p ps ih =>
    unfold emitFields at h
    cases hx : emitField dml p.1 p.2 with
    | error e => rw [hx] at h; exact Except.noConfusion h
    | ok vs =>
      rw [hx] at h
      obtain ⟨t, ht⟩ := ih h
      exact ⟨vs ++ t, by simp [ht]⟩

lemma emitFields_mem {dml : List JVal} {f g : NCFile}
    {ps : List (String × JVal)} (h : emitFields dml f ps = .ok g) :
    ∀ p ∈ ps, ∃ vs, emitField dml p.1 p.2 = .ok vs ∧ ∀ x ∈ vs, x ∈ g.vars := by
  induction ps generalizing f with
  | nil => intro p hp; exact absurd hp (List.not_mem_nil p)
  | cons q ps ih =>
    intro p hp
    unfold emitFields at h
    cases hx : emitField dml q.1 q.2 with
    | error e => rw [hx] at h; exact Except.noConfusion h
    | ok vs =>
      rw [hx] at h
      rcases List.mem_cons.mp hp with hpq | hptail
      · subst hpq
        refine ⟨vs, hx, ?_⟩
        intro x hxv
        obtain ⟨t, ht⟩ := emitFields_vars_mono h
        rw [ht]
        simp [hxv]
      · exact ih h p hptail

/-- Successful builds go through `emitFields` on the template record's
fields, and every emitted variable survives into the final container. -/
lemma ncMain_ok_emitFields {arr : List JVal} {wl sp : List (List ℚ)}
    {rt cl : Option String} {f : NCFile} {dml : List JVal}
    {tfields : List (String × JVal)}
    (h : ncMain arr wl sp rt cl = .ok f)
    (hdml : exMapM (fun j => getField j "environment_sensor_set_reading") arr
      = .ok dml)
    (htmpl : dml.head? = some (.obj tfields)) :
    ∃ f2 f3, emitFields dml f2 tfields = .ok f3 ∧ ∀ x ∈ f3.vars, x ∈ f.vars := by
  unfold ncMain ncCore at h
  rw [hdml] at h
  simp only [withFile] at h
  cases hts : exMapM (fun j => getField j "timestamp") dml with
  | error e => rw [hts] at h; exact Except.noConfusion h
  | ok tsv =>
    rw [hts] at h
    simp only [withFile] at h
    cases hs : exMapM asStr tsv with
    | error e => rw [hs] at h; exact Except.noConfusion h
    | ok ts =>
      rw [hs] at h
      simp only [withFile] at h
      rw [htmpl] at h
      dsimp only at h
      cases hef : emitFields dml
          { dims := [("time", none)],
            vars := [{ name := "time", dims := ["time"],
                       data := .textList ts }] } tfields with
      | error e => rw [hef] at h; exact Except.noConfusion h
      | ok f3 =>
        rw [hef] at h
        refine ⟨_, f3, hef, ?_⟩
        intro x hx
        cases rt with
        | none => exact Except.noConfusion h
        | some r =>
          cases cl with
          | none => exact Except.noConfusion h
          | some c =>
            cases h
            show x ∈ (wavelengthBlock f3 wl sp).vars
            unfold wavelengthBlock
            split
            · simp [hx]
            · exact hx

lemma emitField_obj_ne_spectrometer {dml : List JVal} {data : String}
    {fs : List (String × JVal)} (hne : data ≠ "spectrometer") :
    emitField dml data (.obj fs) = emitNumericField dml data fs := by
  unfold emitField
  simp only [if_neg hne]
  cases h : emitNumericField dml data fs <;> simp [h, if_neg hne]

lemma emitField_spectrometer_obj {dml : List JVal}
    {fs : List (String × JVal)} :
    emitField dml "spectrometer" (.obj fs) = emitSpectrometerVars dml := by
  unfold emitField
  simp only [if_pos rfl]
  cases h : emitSpectrometerVars dml <;> simp [h]

/-- C4 (amended): for a `spectrometer` field whose template value is the
nested sub-object, the builder's per-field emission is exactly the two
dedicated time-indexed variables (maximum fixed intensity, integration time
in microseconds) populated from every record's sub-object; no generic
per-field numeric variable is emitted for `spectrometer`. -/
theorem spectrometerEmitsOnlyDedicatedVars
    (dml : List JVal) (fs : List (String × JVal)) (vs : List NCVar)
    (h : emitField dml "spectrometer" (.obj fs) = .ok vs) :
    ∃ maxI intT,
      spectrometerInts dml "maxFixedIntensity" = .ok maxI ∧
      spectrometerInts dml "integration time in ?s" = .ok intT ∧
      maxI.length = dml.length ∧ intT.length = dml.length ∧
      vs = [{ name := "Spectrometer_maxFixedIntensity", dims := ["time"],
              data := .floats (maxI.map (fun n => mkRat n 1)) },
            { name := "Spectrometer_Integration_Time_In_Microseconds",
              dims := ["time"],
              data := .floats (intT.map (fun n => mkRat n 1)) }] ∧
      ∀ x ∈ vs, x.name ≠ renameTheValue "spectrometer" := by
  rw [emitField_spectrometer_obj] at h
  unfold emitSpectrometerVars at h
  cases h1 : spectrometerInts dml "maxFixedIntensity" with
  | error e => rw [h1] at h; exact Except.noConfusion h
  | ok maxI =>
    rw [h1] at h
    cases h2 : spectrometerInts dml "integration time in ?s" with
    | error e => rw [h2] at h; exact Except.noConfusion h
    | ok intT =>
      rw [h2] at h
      cases h
      refine ⟨maxI, intT, rfl, rfl,
        exMapM_ok_length (show exMapM _ dml = _ from h1),
        exMapM_ok_length (show exMapM _ dml = _ from h2), rfl, ?_⟩
      intro x hx
      rcases List.mem_cons.mp hx with h | h
      · subst h
        show "Spectrometer_maxFixedIntensity" ≠ renameTheValue "spectrometer"
        decide
      · rcases List.mem_cons.mp h with h | h
        · subst h
          show "Spectrometer_Integration_Time_In_Microseconds" ≠
            renameTheValue "spectrometer"
          decide
        · exact absurd h (List.not_mem_nil x)

/-- C6: units are attached by translating the template descriptor's `unit`
through `_UNIT_DICTIONARY` (so `"DegCelsius"` becomes `"Celsius"`), and a
unit string outside the table aborts the build with a `KeyError` instead of
being passed through. -/
theorem unitLookupTranslation :
    unitDictionary "DegCelsius" = some "Celsius" ∧
    (∀ (dml : List JVal) (data : String) (fs : List (String × JVal))
        (u : String) (vs : List NCVar),
        data ≠ "spectrometer" →
        jLookup fs "unit" = some (.str u) →
        emitField dml data (.obj fs) = .ok vs →
        ∃ tr vals, unitDictionary u = some tr ∧
          getListOfValue dml data = .ok vals ∧
          vs.head? = some { name := renameTheValue data, dims := ["time"],
                            data := .floats vals, units := some tr }) ∧
    (∀ (dml : List JVal) (data : String) (fs : List (String × JVal))
        (u : String) (vals : List ℚ),
        data ≠ "spectrometer" →
        jLookup fs "unit" = some (.str u) →
        getListOfValue dml data = .ok vals →
        unitDictionary u = none →
        emitField dml data (.obj fs) = .error .keyError) := by
  refine ⟨rfl, ?_, ?_⟩
  · intro dml data fs u vs hne hu h
    rw [emitField_obj_ne_spectrometer hne] at h
    unfold emitNumericField at h
    cases hv : getListOfValue dml data with
    | error e => rw [hv] at h; exact Except.noConfusion h
    | ok vals =>
      rw [hv] at h
      have hlu : lookupUnits fs =
          match unitDictionary u with
          | some tr => .ok (some tr)
          | none => .error .keyError := by
        unfold lookupUnits
        rw [hu]
        rfl
      cases hd : unitDictionary u with
      | none => rw [hlu, hd] at h; exact Except.noConfusion h
      | some tr =>
        rw [hlu, hd] at h
        refine ⟨tr, vals, rfl, rfl, ?_⟩
        dsimp only at h
        cases hr : jLookup fs "rawValue" with
        | none => rw [hr] at h; cases h; rfl
        | some rv =>
          rw [hr] at h
          cases hraws : getListOfRawValue dml data with
          | error e => rw [hraws] at h; exact Except.noConfusion h
          | ok raws => rw [hraws] at h; cases h; rfl
  · intro dml data fs u vals hne hu hv hd
    rw [emitField_obj_ne_spectrometer hne]
    unfold emitNumericField
    rw [hv]
    have hlu : lookupUnits fs = .error .keyError := by
      unfold lookupUnits
      rw [hu]
      dsimp only [asStr]
      rw [hd]
    rw [hlu]

/-- C7: a template scalar field carrying both `value` and `rawValue` makes
the builder emit exactly two variables for that field — the primary and the
`_rawValue`-suffixed companion — both time-indexed with one value per
record, the companion populated from every record's raw value; both end up
in the final container. -/
theorem rawValueCompanionPair
    (arr : List JVal) (wl sp : List (List ℚ)) (rt cl : Option String)
    (f : NCFile) (dml : List JVal) (tfields dfs : List (String × JVal))
    (data : String) (rv v0 : JVal)
    (h : ncMain arr wl sp rt cl = .ok f)
    (hdml : exMapM (fun j => getField j "environment_sensor_set_reading") arr
      = .ok dml)
    (htmpl : dml.head? = some (.obj tfields))
    (hmem : (data, JVal.obj dfs) ∈ tfields)
    (hns : data ≠ "spectrometer")
    (hval : jLookup dfs "value" = some v0)
    (hraw : jLookup dfs "rawValue" = some rv) :
    ∃ vals raws units,
      getListOfValue dml data = .ok vals ∧ vals.length = arr.length ∧
      getListOfRawValue dml data = .ok raws ∧ raws.length = arr.length ∧
      emitField dml data (.obj dfs) = .ok
        [{ name := renameTheValue data, dims := ["time"],
           data := .floats vals, units := units },
         { name := renameTheValue data ++ "_rawValue", dims := ["time"],
           data := .floats raws }] ∧
      { name := renameTheValue data, dims := ["time"],
        data := .floats vals, units := units } ∈ f.vars ∧
      { name := renameTheValue data ++ "_rawValue", dims := ["time"],
        data := .floats raws } ∈ f.vars := by
  obtain ⟨f2, f3, hef, hsub⟩ := ncMain_ok_emitFields h hdml htmpl
  obtain ⟨vs, hx, hmemvs⟩ := emitFields_mem hef (data, .obj dfs) hmem
  have harrlen : dml.length = arr.length := exMapM_ok_length hdml
  rw [emitField_obj_ne_spectrometer hns] at hx
  unfold emitNumericField at hx
  cases hv : getListOfValue dml data with
  | error e => rw [hv] at hx; exact Except.noConfusion hx
  | ok vals =>
    rw [hv] at hx
    cases hlu : lookupUnits dfs with
    | error e => rw [hlu] at hx; exact Except.noConfusion hx
    | ok units =>
      rw [hlu] at hx
      dsimp only at hx
      rw [hraw] at hx
      cases hraws : getListOfRawValue dml data with
      | error e => rw [hraws] at hx; exact Except.noConfusion hx
      | ok raws =>
        rw [hraws] at hx
        cases hx
        refine ⟨vals, raws, units, rfl,
          harrlen ▸ exMapM_ok_length (show exMapM _ dml = _ from hv), rfl,
          harrlen ▸ exMapM_ok_length (show exMapM _ dml = _ from hraws),
          ?_, ?_, ?_⟩
        · rw [emitField_obj_ne_spectrometer hns]
          unfold emitNumericField
          rw [hv, hlu]
          dsimp only
          rw [hraw, hraws]
        · exact hsub _ (hmemvs _ (List.Mem.head _))
        · exact hsub _ (hmemvs _ (List.Mem.tail _ (List.Mem.head _)))

/-- Template descriptor of the demo temperature field. -/
def demoTempFields : List (String × JVal) :=
  [("value", .str "25.0"), ("rawValue", .str "50"),
   ("unit", .str "DegCelsius")]

/-- Demo spectrometer sub-object fields. -/
def demoSpectrometerFields : List (String × JVal) :=
  [("maxFixedIntensity", .str "16383"),
   ("integration time in ?s", .str "5000")]

/-- The fields of the demo reading record. -/
def demoReadingFields : List (String × JVal) :=
  [("timestamp", .str "t1"),
   ("temperature", .obj demoTempFields),
   ("spectrometer", .obj demoSpectrometerFields)]

/-- A one-record demo sequence containing a spectrometer sub-object. -/
def demoArr : List JVal :=
  [.obj [("environment_sensor_set_reading", .obj demoReadingFields)]]

/-- `demoArr` after extracting the reading objects. -/
def demoDml : List JVal := [.obj demoReadingFields]

/-- The container `ncMain` builds for `demoArr` (no wavelength block). -/
def demoBuiltFile : NCFile :=
  { dims := [("time", none)],
    vars := [{ name := "time", dims := ["time"], data := .textList ["t1"] },
             { name := "timestamp", dims := [], data := .text "t1" },
             { name := "temperature", dims := ["time"],
               data := .floats [mkRat 25 1], units := some "Celsius" },
             { name := "temperature_rawValue", dims := ["time"],
               data := .floats [mkRat 50 1] },
             { name := "Spectrometer_maxFixedIntensity", dims := ["time"],
               data := .floats [mkRat 16383 1] },
             { name := "Spectrometer_Integration_Time_In_Microseconds",
               dims := ["time"], data := .floats [mkRat 5000 1] }],
    history := some "T: python C" }

/-- C4 counterexample: on a concrete record sequence whose records contain a
spectrometer sub-object, the build succeeds but emits no generic
time-indexed variable named after the `spectrometer` field (the claim
predicts one, as for any non-text field); only the two dedicated variables
appear. -/
theorem spectrometerGenericVariableMissing :
    ncMain demoArr [] [] (some "T") (some "C") = .ok demoBuiltFile ∧
    demoBuiltFile.vars.countP
      (fun x => x.name = renameTheValue "spectrometer") = 0 ∧
    demoBuiltFile.vars.countP
      (fun x => x.name = "Spectrometer_maxFixedIntensity") = 1 ∧
    demoBuiltFile.vars.countP
      (fun x => x.name = "Spectrometer_Integration_Time_In_Microseconds")
      = 1 := by
  refine ⟨?_, by decide, by decide, by decide⟩
  decide

/-- Witness for C4 (amended) at the demo record sequence. -/
theorem spectrometerEmitsOnlyDedicatedVars_witness :
    ∃ maxI intT,
      spectrometerInts demoDml "maxFixedIntensity" = .ok maxI ∧
      spectrometerInts demoDml "integration time in ?s" = .ok intT ∧
      maxI.length = demoDml.length ∧ intT.length = demoDml.length ∧
      [({ name := "Spectrometer_maxFixedIntensity", dims := ["time"],
          data := .floats [mkRat 16383 1] } : NCVar),
       { name := "Spectrometer_Integration_Time_In_Microseconds",
         dims := ["time"], data := .floats [mkRat 5000 1] }] =
        [{ name := "Spectrometer_maxFixedIntensity", dims := ["time"],
           data := .floats (maxI.map (fun n => mkRat n 1)) },
         { name := "Spectrometer_Integration_Time_In_Microseconds",
           dims := ["time"],
           data := .floats (intT.map (fun n => mkRat n 1)) }] ∧
      ∀ x ∈ [({ name := "Spectrometer_maxFixedIntensity", dims := ["time"],
                data := .floats [mkRat 16383 1] } : NCVar),
             { name := "Spectrometer_Integration_Time_In_Microseconds",
               dims := ["time"], data := .floats [mkRat 5000 1] }],
        x.name ≠ renameTheValue "spectrometer" :=
  spectrometerEmitsOnlyDedicatedVars demoDml demoSpectrometerFields _
    (by decide)

/-- Witness for C6 at the demo inputs: `DegCelsius` is attached as
`Celsius`, and an unknown unit string (`Kelvin`) aborts with `KeyError`. -/
theorem unitLookupTranslation_witness :
    (∃ tr vals, unitDictionary "DegCelsius" = some tr ∧
      getListOfValue demoDml "temperature" = .ok vals ∧
      ([({ name := "temperature", dims := ["time"],
           data := .floats [mkRat 25 1], units := some "Celsius" } : NCVar),
        { name := "temperature_rawValue", dims := ["time"],
          data := .floats [mkRat 50 1] }].head? : Option NCVar) =
        some { name := renameTheValue "temperature", dims := ["time"],
               data := .floats vals, units := some tr }) ∧
    emitField [JVal.obj [("pressure",
        .obj [("value", .str "1"), ("unit", .str "Kelvin")])]]
      "pressure" (.obj [("value", .str "1"), ("unit", .str "Kelvin")]) =
      .error .keyError :=
  ⟨unitLookupTranslation.2.1 demoDml "temperature" demoTempFields
      "DegCelsius" _ (by decide) rfl (by decide),
   unitLookupTranslation.2.2
      [JVal.obj [("pressure",
        .obj [("value", .str "1"), ("unit", .str "Kelvin")])]]
      "pressure" [("value", .str "1"), ("unit", .str "Kelvin")]
      "Kelvin" [mkRat 1 1] (by decide) rfl (by decide) rfl⟩

/-- Witness for C7 at the demo inputs. -/
theorem rawValueCompanionPair_witness :
    ∃ vals raws units,
      getListOfValue demoDml "temperature" = .ok vals ∧
      vals.length = demoArr.length ∧
      getListOfRawValue demoDml "temperature" = .ok raws ∧
      raws.length = demoArr.length ∧
      emitField demoDml "temperature" (.obj demoTempFields) = .ok
        [{ name := renameTheValue "temperature", dims := ["time"],
           data := .floats vals, units := units },
         { name := renameTheValue "temperature" ++ "_rawValue",
           dims := ["time"], data := .floats raws }] ∧
      { name := renameTheValue "temperature", dims := ["time"],
        data := .floats vals, units := units } ∈ demoBuiltFile.vars ∧
      { name := renameTheValue "temperature" ++ "_rawValue",
        dims := ["time"], data := .floats raws } ∈ demoBuiltFile.vars :=
  rawValueCompanionPair demoArr [] [] (some "T") (some "C") demoBuiltFile
    demoDml demoReadingFields demoTempFields "temperature"
    (.str "50") (.str "25.0")
    (by decide) rfl rfl (List.Mem.tail _ (List.Mem.head _))
    (by decide) rfl rfl

/-- Minimal record sequence used by witnesses. -/
def demoMiniArr : List JVal :=
  [.obj [("environment_sensor_set_reading", .obj [("timestamp", .str "t")])]]

/-- The container `ncCore` builds for `demoMiniArr`. -/
def demoMiniFile : NCFile :=
  { dims := [("time", none)],
    vars := [{ name := "time", dims := ["time"], data := .textList ["t"] },
             { name := "timestamp", dims := [], data := .text "t" }],
    history := none }

/-- Witness for C10 at a concrete one-record input. -/
theorem provenanceRequiresBothParams_witness :
    (∃ r c, (some "Mon" : Option String) = some r ∧
      (some "a b" : Option String) = some c ∧
      ({ demoMiniFile with
          history := some ("Mon" ++ ": python " ++ "a b") } : NCFile).history =
        some (r ++ ": python " ++ c)) ∧
    (ncMain demoMiniArr [] [] none (some "a b") =
        .error (.typeError, demoMiniFile) ∧
      ncMain demoMiniArr [] [] (some "Mon") none =
        .error (.typeError, demoMiniFile)) :=
  ⟨(provenanceRequiresBothParams demoMiniArr [] [] (some "Mon") (some "a b")
      { demoMiniFile with history := some ("Mon" ++ ": python " ++ "a b") }
      demoMiniFile).1 rfl,
   (provenanceRequiresBothParams demoMiniArr [] [] (some "Mon") (some "a b")
      demoMiniFile demoMiniFile).2 rfl⟩

/-! ## C2: entries per record and the direction of the slot drop -/

/-- C2 (amended): for every nonempty well-formed log with N records, the loop
ends with `wavelengthList` holding the N per-record wavelength value lists
followed by one trailing empty slot, and `spectrumList` holding one leading
empty slot followed by the N per-record spectrum value lists. Each
`remove([])` call drops the first empty slot — the leading slot for the
spectrum series but the **trailing** slot for the wavelength series, whose
first slot holds the first record's values — and the returned
WavelengthSeries and SpectrumSeries have exactly N entries each. -/
theorem seriesPerRecordEntries (rs : List GenRecord) (hne : rs ≠ [])
    (hwf : ∀ r ∈ rs, WFRec r) :
    ∃ st,
      fmtLoop (pySplitNl (joinLines (renderLog rs))) = .ok st ∧
      st.wavelengthList =
        rs.map (fun r => r.wls.map wlNumVal) ++ [[]] ∧
      st.spectrumList =
        [[]] ++ rs.map (fun r => r.sps.map spNumVal) ∧
      formatting (joinLines (renderLog rs)) =
        .ok (ls "[" :: (openBraceLine :: stitchedTail rs) ++ [ls "]"],
             rs.map (fun r => r.wls.map wlNumVal),
             rs.map (fun r => r.sps.map spNumVal)) ∧
      (rs.map (fun r => r.wls.map wlNumVal)).length = rs.length ∧
      (rs.map (fun r => r.sps.map spNumVal)).length = rs.length := by
  refine ⟨⟨blocksMarks 1 rs,
           rs.map (fun r => r.wls.map wlNumVal) ++ [[]],
           [[]] ++ rs.map (fun r => r.sps.map spNumVal),
           rs.length, rs.length⟩,
          ?_, rfl, rfl, formatting_renderLog rs hne hwf, by simp, by simp⟩
  rw [pySplitNl_joinLines (renderLog rs) (by simp [renderLog])
    (renderLog_clean rs hwf)]
  exact fmtLoop_renderLog rs hne hwf

/-- One-record log used for the C2 refutation and witness. -/
def ex2rec : GenRecord :=
  ⟨ls "t", [],
   [ls "1.0", ls "2.0", ls "3.0", ls "4.0"],
   [ls "5.0", ls "6.0", ls "7.0", ls "8.0"]⟩

/-- C2 counterexample: on a one-record log the wavelength accumulator before
removal is `[values, []]` — its first slot holds the record's values and is
not empty, and the returned WavelengthSeries is not what dropping the first
slot would give: `remove([])` drops the trailing empty slot instead. -/
theorem seriesFirstSlotDrop_counterexample :
    ∃ st wl sp out,
      fmtLoop (pySplitNl (joinLines (renderLog [ex2rec]))) = .ok st ∧
      formatting (joinLines (renderLog [ex2rec])) = .ok (out, wl, sp) ∧
      st.wavelengthList.getD 0 [] ≠ [] ∧
      wl ≠ st.wavelengthList.drop 1 := by
  refine ⟨⟨blocksMarks 1 [ex2rec],
           [ex2rec].map (fun r => r.wls.map wlNumVal) ++ [[]],
           [[]] ++ [ex2rec].map (fun r => r.sps.map spNumVal),
           [ex2rec].length, [ex2rec].length⟩,
          [ex2rec].map (fun r => r.wls.map wlNumVal),
          [ex2rec].map (fun r => r.sps.map spNumVal),
          ls "[" :: (openBraceLine :: stitchedTail [ex2rec]) ++ [ls "]"],
          ?_, ?_, ?_, ?_⟩
  · rw [pySplitNl_joinLines (renderLog [ex2rec]) (by simp [renderLog])
      (renderLog_clean [ex2rec] (by decide))]
    exact fmtLoop_renderLog [ex2rec] (by simp) (by decide)
  · exact formatting_renderLog [ex2rec] (by simp) (by decide)
  · decide
  · decide

/-- Witness for C2 at the concrete one-record log. -/
theorem seriesPerRecordEntries_witness :
    ([ex2rec] ≠ []) ∧ (∀ r ∈ [ex2rec], WFRec r) ∧
    ∃ st,
      fmtLoop (pySplitNl (joinLines (renderLog [ex2rec]))) = .ok st ∧
      st.wavelengthList =
        [ex2rec].map (fun r => r.wls.map wlNumVal) ++ [[]] ∧
      st.spectrumList =
        [[]] ++ [ex2rec].map (fun r => r.sps.map spNumVal) ∧
      formatting (joinLines (renderLog [ex2rec])) =
        .ok (ls "[" :: (openBraceLine :: stitchedTail [ex2rec]) ++ [ls "]"],
             [ex2rec].map (fun r => r.wls.map wlNumVal),
             [ex2rec].map (fun r => r.sps.map spNumVal)) ∧
      ([ex2rec].map (fun r => r.wls.map wlNumVal)).length =
        [ex2rec].length ∧
      ([ex2rec].map (fun r => r.sps.map spNumVal)).length =
        [ex2rec].length :=
  ⟨by simp, by decide, seriesPerRecordEntries [ex2rec] (by simp) (by decide)⟩

/-! ## C1: the repaired text as an array of objects

`json.loads` succeeds on the rewritten file exactly when the text is a
syntactically valid JSON document. The dialect's member lines are arbitrary
subject to the well-formedness conditions of `WFRec`, so the faithful
checkable property is the array-of-objects skeleton the repair is
responsible for: the text is `[` followed by N balanced brace blocks
separated by `,` and a closing `]`, with nothing else at top level. The
parser below checks exactly that skeleton (whitespace-insensitively) and
counts the objects. -/

/-- JSON insignificant whitespace. -/
def isWsChar (c : Char) : Bool :=
  c = ' ' || c = '\n' || c = '\t' || c = '\r'

/-- Skip insignificant whitespace. -/
def skipWs (s : Line) : Line := s.dropWhile isWsChar

/-- Consume the rest of a brace block opened at depth `d`; returns the text
after the matching closing brace. -/
def scanObj : Line → Nat → Option Line
  | [], _ => none
  | c :: cs, d =>
    if c = '\x7d' then if d = 1 then some cs else scanObj cs (d - 1)
    else if c = '\x7b' then scanObj cs (d + 1)
    else scanObj cs d

/-- After `k` objects: expect `, object` repeatedly and the final `]`. -/
def parseTail : Nat → Line → Nat → Option Nat
  | 0, _, _ => none
  | fuel + 1, s, k =>
    match skipWs s with
    | ']' :: rest => if (skipWs rest).isEmpty then some k else none
    | ',' :: rest =>
      match skipWs rest with
      | '\x7b' :: rest2 =>
        match scanObj rest2 1 with
        | some rest3 => parseTail fuel rest3 (k + 1)
        | none => none
      | _ => none
    | _ => none

/-- Checks that the text is `[ obj , obj , ... , obj ]` — a JSON-style array
of balanced brace blocks — and counts the objects. -/
def parseArrayOfObjects (s : Line) : Option Nat :=
  match skipWs s with
  | '[' :: rest =>
    match skipWs rest with
    | ']' :: rest2 => if (skipWs rest2).isEmpty then some 0 else none
    | '\x7b' :: rest2 =>
      match scanObj rest2 1 with
      | some rest3 => parseTail s.length rest3 1
      | none => none
    | _ => none
  | _ => none

lemma safeFromB_append :
    ∀ (A B : Line) (d : Nat),
      safeFromB (A ++ B) d =
        (safeFromB A d && safeFromB B (endDepth A d)) := by
  intro A
  induction A with
  | nil => intro B d; rfl
  | cons c cs ih =>
    intro B d
    by_cases h1 : c = '\x7d'
    · subst h1
      simp [safeFromB, endDepth, ih, Bool.and_assoc]
    · by_cases h2 : c = '\x7b'
      · subst h2
        simp [safeFromB, endDepth, ih]
      · simp [safeFromB, endDepth, h1, h2, ih]

lemma endDepth_append :
    ∀ (A B : Line) (d : Nat),
      endDepth (A ++ B) d = endDepth B (endDepth A d) := by
  intro A
  induction A with
  | nil => intro B d; rfl
  | cons c cs ih =>
    intro B d
    by_cases h1 : c = '\x7d'
    · subst h1; simp [endDepth, ih]
    · by_cases h2 : c = '\x7b'
      · subst h2; simp [endDepth, ih]
      · simp [endDepth, h1, h2, ih]

lemma braceFree_safeFromB :
    ∀ (l : Line) (d : Nat), braceFree l = true → safeFromB l d = true := by
  intro l
  induction l with
  | nil => intro d _; rfl
  | cons c cs ih =>
    intro d h
    simp only [braceFree, List.all_cons, Bool.and_eq_true] at h
    have h1 : ¬(c = '\x7d') := by
      intro hc; rw [hc] at h; simp at h
    have h2 : ¬(c = '\x7b') := by
      intro hc; rw [hc] at h; simp at h
    simp only [safeFromB, if_neg h1, if_neg h2]
    exact ih d (by simp [braceFree, h.2])

lemma braceFree_endDepth :
    ∀ (l : Line) (d : Nat), braceFree l = true → endDepth l d = d := by
  intro l
  induction l with
  | nil => intro d _; rfl
  | cons c cs ih =>
    intro d h
    simp only [braceFree, List.all_cons, Bool.and_eq_true] at h
    have h1 : ¬(c = '\x7d') := by
      intro hc; rw [hc] at h; simp at h
    have h2 : ¬(c = '\x7b') := by
      intro hc; rw [hc] at h; simp at h
    simp only [endDepth, if_neg h1, if_neg h2]
    exact ih d (by simp [braceFree, h.2])

/-- Scanning passes through a chunk that never closes the object. -/
lemma scanObj_through :
    ∀ (A : Line) (d : Nat), safeFromB A d = true →
      ∀ (B : Line), scanObj (A ++ B) d = scanObj B (endDepth A d) := by
  intro A
  induction A with
  | nil => intro d _ B; rfl
  | cons c cs ih =>
    intro d h B
    by_cases h1 : c = '\x7d'
    · subst h1
      rw [show safeFromB ('\x7d' :: cs) d =
          (decide (2 ≤ d) && safeFromB cs (d - 1)) from by
        simp [safeFromB]] at h
      rw [Bool.and_eq_true, decide_eq_true_eq] at h
      show scanObj ('\x7d' :: (cs ++ B)) d = _
      rw [show scanObj ('\x7d' :: (cs ++ B)) d =
          (if d = 1 then some (cs ++ B) else scanObj (cs ++ B) (d - 1))
        from by simp [scanObj]]
      rw [if_neg (show ¬(d = 1) by omega)]
      rw [ih (d - 1) h.2]
      rw [show endDepth ('\x7d' :: cs) d = endDepth cs (d - 1) from by
        simp [endDepth]]
    · by_cases h2 : c = '\x7b'
      · subst h2
        rw [show safeFromB ('\x7b' :: cs) d = safeFromB cs (d + 1) from by
          simp [safeFromB]] at h
        show scanObj ('\x7b' :: (cs ++ B)) d = _
        rw [show scanObj ('\x7b' :: (cs ++ B)) d =
            scanObj (cs ++ B) (d + 1) from by simp [scanObj]]
        rw [ih (d + 1) h]
        rw [show endDepth ('\x7b' :: cs) d = endDepth cs (d + 1) from by
          simp [endDepth]]
      · rw [show safeFromB (c :: cs) d = safeFromB cs d from by
          simp [safeFromB, h1, h2]] at h
        show scanObj (c :: (cs ++ B)) d = _
        rw [show scanObj (c :: (cs ++ B)) d = scanObj (cs ++ B) d from by
          simp [scanObj, h1, h2]]
        rw [ih d h]
        rw [show endDepth (c :: cs) d = endDepth cs d from by
          simp [endDepth, h1, h2]]

lemma scanObj_closing (X : Line) : scanObj ('\x7d' :: X) 1 = some X := by
  simp [scanObj]

/-- Chained per-line safety of the joined text. -/
def safeLines : List Line → Nat → Bool
  | [], _ => true
  | l :: rest, d => safeFromB l d && safeLines rest (endDepth l d)

/-- Depth after the joined text of the lines. -/
def endDepthLines : List Line → Nat → Nat
  | [], d => d
  | l :: rest, d => endDepthLines rest (endDepth l d)

lemma safeLines_append :
    ∀ (A B : List Line) (d : Nat),
      safeLines (A ++ B) d =
        (safeLines A d && safeLines B (endDepthLines A d)) := by
  intro A
  induction A with
  | nil => intro B d; rfl
  | cons l rest ih =>
    intro B d
    show (safeFromB l d && safeLines (rest ++ B) (endDepth l d)) = _
    rw [ih]
    simp [safeLines, endDepthLines, Bool.and_assoc]

lemma endDepthLines_append :
    ∀ (A B : List Line) (d : Nat),
      endDepthLines (A ++ B) d = endDepthLines B (endDepthLines A d) := by
  intro A
  induction A with
  | nil => intro B d; rfl
  | cons l rest ih => intro B d; exact ih B (endDepth l d)

lemma safeLines_chain {A B : List Line} {d e f : Nat}
    (hA : safeLines A d = true) (hdA : endDepthLines A d = e)
    (hB : safeLines B e = true) (hdB : endDepthLines B e = f) :
    safeLines (A ++ B) d = true ∧ endDepthLines (A ++ B) d = f := by
  constructor
  · rw [safeLines_append, hdA, hA, hB]
    rfl
  · rw [endDepthLines_append, hdA, hdB]

lemma safeLines_single {l : Line} {d e : Nat}
    (h : safeFromB l d = true) (hd : endDepth l d = e) :
    safeLines [l] d = true ∧ endDepthLines [l] d = e := by
  constructor
  · show (safeFromB l d && true) = true
    rw [h]
    rfl
  · show endDepth l d = e
    exact hd

lemma safeLines_braceFree :
    ∀ {A : List Line} {d : Nat}, (∀ l ∈ A, braceFree l = true) →
      safeLines A d = true ∧ endDepthLines A d = d := by
  intro A
  induction A with
  | nil => intro d _; exact ⟨rfl, rfl⟩
  | cons l rest ih =>
    intro d h
    have hl := h l (by simp)
    have hrest := ih (d := d) (fun x hx => h x (List.mem_cons_of_mem l hx))
    constructor
    · show (safeFromB l d && safeLines rest (endDepth l d)) = true
      rw [braceFree_safeFromB l d hl, braceFree_endDepth l d hl, hrest.1]
      rfl
    · show endDepthLines rest (endDepth l d) = d
      rw [braceFree_endDepth l d hl, hrest.2]

lemma safeLines_scalars {A : List Line}
    (h : ∀ l ∈ A, goodScalarLine l) :
    safeLines A 2 = true ∧ endDepthLines A 2 = 2 := by
  induction A with
  | nil => exact ⟨rfl, rfl⟩
  | cons l rest ih =>
    have hl := h l (by simp)
    have hrest := ih (fun x hx => h x (List.mem_cons_of_mem l hx))
    constructor
    · show (safeFromB l 2 && safeLines rest (endDepth l 2)) = true
      rw [hl.2.2.2.2.2, hl.2.2.2.2.1, hrest.1]
      rfl
    · show endDepthLines rest (endDepth l 2) = 2
      rw [hl.2.2.2.2.2, hrest.2]

/-- The record keeps the array's object open throughout and returns to
depth 1 after its three inner closers. -/
lemma renderRecord_safe {r : GenRecord} (h : WFRec r) :
    safeLines (renderRecord r) 1 = true ∧
      endDepthLines (renderRecord r) 1 = 1 := by
  obtain ⟨hW4, hM4, hts, hsc, hwl, hsp⟩ := h
  have s1 : safeLines [markerLine, tsLine r.tsStr] 1 = true ∧
      endDepthLines [markerLine, tsLine r.tsStr] 1 = 2 := by
    have hbf := hts.2.2.2.2.2
    constructor
    · show (safeFromB markerLine 1 &&
        (safeFromB (tsLine r.tsStr) (endDepth markerLine 1) && true)) = true
      rw [show endDepth markerLine 1 = 2 from by decide,
        braceFree_safeFromB _ 2 hbf]
      decide
    · show endDepth (tsLine r.tsStr) (endDepth markerLine 1) = 2
      rw [show endDepth markerLine 1 = 2 from by decide]
      exact braceFree_endDepth _ 2 hbf
  have s2 := safeLines_scalars hsc
  have s3 : safeLines [spectroLine, maxFixedLine, integrationLine] 2 =
      true ∧
      endDepthLines [spectroLine, maxFixedLine, integrationLine] 2 = 3 :=
    ⟨by decide, by decide⟩
  have s4 := safeLines_braceFree (A := r.wls.map wlValueLine) (d := 3)
    (by
      intro l hl
      obtain ⟨x, hx, rfl⟩ := List.mem_map.mp hl
      exact (hwl x hx).2.2.2.2.2)
  have s5 : safeLines [readingsLine] 3 = true ∧
      endDepthLines [readingsLine] 3 = 4 := ⟨by decide, by decide⟩
  have s6 := safeLines_braceFree (A := r.sps.map spValueLine) (d := 4)
    (by
      intro l hl
      obtain ⟨x, hx, rfl⟩ := List.mem_map.mp hl
      exact (hsp x hx).2.2.2.2.2.2)
  have s7 : safeLines [closeBraceLine, closeBraceLine, closeBraceLine] 4 =
      true ∧
      endDepthLines [closeBraceLine, closeBraceLine, closeBraceLine] 4 = 1
      := ⟨by decide, by decide⟩
  have c12 := safeLines_chain s1.1 s1.2 s2.1 s2.2
  have c13 := safeLines_chain c12.1 c12.2 s3.1 s3.2
  have c14 := safeLines_chain c13.1 c13.2 s4.1 s4.2
  have c15 := safeLines_chain c14.1 c14.2 s5.1 s5.2
  have c16 := safeLines_chain c15.1 c15.2 s6.1 s6.2
  have c17 := safeLines_chain c16.1 c16.2 s7.1 s7.2
  exact c17

lemma safeFromB_cons_nl (J : Line) (d : Nat) :
    safeFromB ('\n' :: J) d = safeFromB J d := by
  simp [safeFromB]

lemma endDepth_cons_nl (J : Line) (d : Nat) :
    endDepth ('\n' :: J) d = endDepth J d := by
  simp [endDepth]

lemma joinLines_append_ne :
    ∀ (A : List Line), A ≠ [] → ∀ (B : List Line), B ≠ [] →
      joinLines (A ++ B) = joinLines A ++ '\n' :: joinLines B := by
  intro A
  induction A with
  | nil => intro h; exact absurd rfl h
  | cons x xs ih =>
    intro _ B hB
    cases xs with
    | nil => exact joinLines_cons x hB
    | cons y ys =>
      show joinLines (x :: ((y :: ys) ++ B)) = _
      rw [joinLines_cons x (by simp), ih (by simp) B hB,
        joinLines_cons x (by simp)]
      simp

/-- Joined safe lines are a safe chunk of text. -/
lemma joinLines_safe :
    ∀ (A : List Line) (d : Nat), A ≠ [] → safeLines A d = true →
      safeFromB (joinLines A) d = true ∧
      endDepth (joinLines A) d = endDepthLines A d := by
  intro A
  induction A with
  | nil => intro d h _; exact absurd rfl h
  | cons x xs ih =>
    intro d _ hs
    rw [show safeLines (x :: xs) d =
        (safeFromB x d && safeLines xs (endDepth x d)) from rfl,
      Bool.and_eq_true] at hs
    cases xs with
    | nil => exact ⟨hs.1, rfl⟩
    | cons y ys =>
      rw [joinLines_cons x (by simp)]
      have hin := ih (endDepth x d) (by simp) hs.2
      constructor
      · rw [safeFromB_append, hs.1, safeFromB_cons_nl, hin.1]
        rfl
      · rw [endDepth_append, endDepth_cons_nl, hin.2]
        rfl

/-- What remains of the text after one object has been consumed. -/
def tailText : List GenRecord → Line
  | [] => ['\n', ']']
  | r :: rest =>
    ',' :: '\x7b' :: '\n' ::
      joinLines (stitchedTail (r :: rest) ++ [ls "]"])

/-- Scanning one record block consumes it up to (and including) its replaced
or final outer closing brace. -/
lemma scan_block (r : GenRecord) (rest : List GenRecord) (hwf : WFRec r) :
    scanObj ('\n' :: joinLines (stitchedTail (r :: rest) ++ [ls "]"])) 1 =
      some (tailText rest) := by
  have hdr := renderRecord_safe hwf
  have hj := joinLines_safe (renderRecord r) 1 (by simp [renderRecord]) hdr.1
  have hd1 : endDepth ('\n' :: joinLines (renderRecord r)) 1 = 1 := by
    rw [endDepth_cons_nl, hj.2, hdr.2]
  have hA : safeFromB (('\n' :: joinLines (renderRecord r)) ++ ['\n']) 1 =
      true := by
    rw [safeFromB_append, hd1, safeFromB_cons_nl, hj.1]
    decide
  have hdA : endDepth (('\n' :: joinLines (renderRecord r)) ++ ['\n']) 1 = 1
      := by
    rw [endDepth_append, hd1]
    decide
  cases rest with
  | nil =>
    have htext : joinLines (stitchedTail [r] ++ [ls "]"]) =
        joinLines (renderRecord r) ++ '\n' :: '\x7d' :: '\n' :: ']' :: []
        := by
      show joinLines ((renderRecord r ++ [closeBraceLine]) ++ [ls "]"]) = _
      rw [show (renderRecord r ++ [closeBraceLine]) ++ [ls "]"] =
          renderRecord r ++ [closeBraceLine, ls "]"] by simp,
        joinLines_append_ne _ (by simp [renderRecord]) _ (by simp)]
      rfl
    rw [htext,
      show ('\n' :: (joinLines (renderRecord r) ++
          '\n' :: '\x7d' :: '\n' :: ']' :: [])) =
        (('\n' :: joinLines (renderRecord r)) ++ ['\n']) ++
          ('\x7d' :: '\n' :: ']' :: []) by simp,
      scanObj_through _ 1 hA, hdA, scanObj_closing]
    rfl
  | cons r2 rest2 =>
    have htext : joinLines (stitchedTail (r :: r2 :: rest2) ++ [ls "]"]) =
        joinLines (renderRecord r) ++
          '\n' :: (stitchLine ++
            '\n' :: joinLines (stitchedTail (r2 :: rest2) ++ [ls "]"]))
        := by
      show joinLines ((renderRecord r ++
        stitchLine :: stitchedTail (r2 :: rest2)) ++ [ls "]"]) = _
      rw [show (renderRecord r ++ stitchLine :: stitchedTail (r2 :: rest2))
            ++ [ls "]"] =
          renderRecord r ++
            (stitchLine :: (stitchedTail (r2 :: rest2) ++ [ls "]"]))
          by simp,
        joinLines_append_ne _ (by simp [renderRecord]) _ (by simp),
        joinLines_cons _ (by simp)]
    rw [htext,
      show ('\n' :: (joinLines (renderRecord r) ++
          '\n' :: (stitchLine ++ '\n' ::
            joinLines (stitchedTail (r2 :: rest2) ++ [ls "]"])))) =
        (('\n' :: joinLines (renderRecord r)) ++ ['\n']) ++
          ('\x7d' :: ',' :: '\x7b' :: '\n' ::
            joinLines (stitchedTail (r2 :: rest2) ++ [ls "]"])) by
        rw [show stitchLine = ('\x7d' :: ',' :: '\x7b' :: ([] : Line))
          from rfl]
        simp,
      scanObj_through _ 1 hA, hdA, scanObj_closing]
    rfl

lemma parseTail_done (f k : Nat) :
    parseTail (f + 1) ['\n', ']'] k = some k := rfl

lemma parseTail_step (f k : Nat) (J : Line) :
    parseTail (f + 1) (',' :: '\x7b' :: '\n' :: J) k =
      match scanObj ('\n' :: J) 1 with
      | some rest3 => parseTail f rest3 (k + 1)
      | none => none := rfl

/-- Consuming the remaining records: one `, object` step each, then `]`. -/
lemma parseTail_tail :
    ∀ (rest : List GenRecord) (k fuel : Nat), rest.length < fuel →
      (∀ r ∈ rest, WFRec r) →
      parseTail fuel (tailText rest) k = some (k + rest.length) := by
  intro rest
  induction rest with
  | nil =>
    intro k fuel hf _
    cases fuel with
    | zero => omega
    | succ f => exact parseTail_done f k
  | cons r2 rest2 ih =>
    intro k fuel hf hwf
    cases fuel with
    | zero => simp at hf
    | succ f =>
      show parseTail (f + 1)
        (',' :: '\x7b' :: '\n' ::
          joinLines (stitchedTail (r2 :: rest2) ++ [ls "]"])) k = _
      rw [parseTail_step, scan_block r2 rest2 (hwf r2 (by simp))]
      dsimp only
      rw [ih (k + 1) f (by simp only [List.length_cons] at hf; omega)
        (fun x hx => hwf x (List.mem_cons_of_mem r2 hx))]
      congr 1
      simp only [List.length_cons]
      omega

lemma joinLines_length :
    ∀ (l : List Line), l.length ≤ (joinLines l).length + 1 := by
  intro l
  induction l with
  | nil => simp [joinLines]
  | cons x xs ih =>
    cases xs with
    | nil => simp [joinLines]
    | cons y ys =>
      rw [joinLines_cons x (by simp)]
      simp only [List.length_cons, List.length_append] at ih ⊢
      omega

lemma stitchedTail_length_ge :
    ∀ (rs : List GenRecord), rs.length ≤ (stitchedTail rs).length := by
  intro rs
  induction rs with
  | nil => simp [stitchedTail]
  | cons r rest ih =>
    cases rest with
    | nil =>
      have := recBlock_length r
      show ([r] : List GenRecord).length ≤ (recBlock r).length
      simp only [List.length_singleton]
      omega
    | cons r2 rest2 =>
      show (r :: r2 :: rest2).length ≤
        (renderRecord r ++ stitchLine :: stitchedTail (r2 :: rest2)).length
      simp only [List.length_cons, List.length_append] at ih ⊢
      omega

lemma parseArrayOfObjects_eq (J : Line) :
    parseArrayOfObjects ('[' :: '\n' :: '\x7b' :: '\n' :: J) =
      match scanObj ('\n' :: J) 1 with
      | some rest3 =>
        parseTail ('[' :: '\n' :: '\x7b' :: '\n' :: J).length rest3 1
      | none => none := rfl

/-- C1: for every nonempty well-formed log, the Repairer/Parser succeeds and
the rewritten content is an array of exactly N balanced objects: it parses
as `[ obj , obj , ... , obj ]` with one object per reading record. The
structural array-of-objects check is the part of JSON syntax governed by the
repair; the member lines inside each object are the input's own lines, which
the rewrite leaves untouched. -/
theorem repairedParsesAsArray (rs : List GenRecord) (hne : rs ≠ [])
    (hwf : ∀ r ∈ rs, WFRec r) :
    ∃ out wl sp,
      formatting (joinLines (renderLog rs)) = .ok (out, wl, sp) ∧
      parseArrayOfObjects (joinLines out) = some rs.length := by
  refine ⟨ls "[" :: (openBraceLine :: stitchedTail rs) ++ [ls "]"],
    rs.map (fun r => r.wls.map wlNumVal),
    rs.map (fun r => r.sps.map spNumVal),
    formatting_renderLog rs hne hwf, ?_⟩
  cases rs with
  | nil => exact absurd rfl hne
  | cons r rest =>
    have hjoin : joinLines
        (ls "[" :: (openBraceLine :: stitchedTail (r :: rest)) ++ [ls "]"]) =
        '[' :: '\n' :: '\x7b' :: '\n' ::
          joinLines (stitchedTail (r :: rest) ++ [ls "]"]) := by
      show joinLines (ls "[" :: openBraceLine ::
        (stitchedTail (r :: rest) ++ [ls "]"])) = _
      rw [joinLines_cons _ (by simp), joinLines_cons _ (by simp)]
      rfl
    rw [hjoin, parseArrayOfObjects_eq, scan_block r rest (hwf r (by simp))]
    dsimp only
    have hbound : rest.length <
        ('[' :: '\n' :: '\x7b' :: '\n' ::
          joinLines (stitchedTail (r :: rest) ++ [ls "]"])).length := by
      have h1 := stitchedTail_length_ge (r :: rest)
      have h2 := joinLines_length (stitchedTail (r :: rest) ++ [ls "]"])
      simp only [List.length_cons, List.length_append,
        List.length_singleton] at h1 h2 ⊢
      omega
    rw [parseTail_tail rest 1 _ hbound
      (fun x hx => hwf x (List.mem_cons_of_mem r hx))]
    congr 1
    simp only [List.length_cons]
    omega

/-- Witness for C1 at the concrete one-record log. -/
theorem repairedParsesAsArray_witness :
    ([ex2rec] ≠ []) ∧ (∀ r ∈ [ex2rec], WFRec r) ∧
    ∃ out wl sp,
      formatting (joinLines (renderLog [ex2rec])) = .ok (out, wl, sp) ∧
      parseArrayOfObjects (joinLines out) = some [ex2rec].length :=
  ⟨by simp, by decide,
   repairedParsesAsArray [ex2rec] (by simp) (by decide)⟩

end EnvLogger
